import Mathlib

/-!
Verification of the SDWIS translation API database adapter (`db.js`).

The adapter receives PostgreSQL-flavored SQL (placeholders `$n`, the ILIKE
operator, `LIMIT $i OFFSET $j` pagination) plus an ordered bind list, and
rewrites both for the selected backend dialect.  We embed the JavaScript
source shallowly: query texts are `List Char`, bind values are `JSVal`
(the JavaScript values that actually flow through the adapter), and each
regular-expression transform of the source is embedded as an explicit
left-to-right scanner whose per-position attempt mirrors the regex.  Each
greedy quantifier in the source regexes is followed by a token that cannot
match a character the quantifier accepts, so maximal munch without
backtracking is exact; this is noted at each matcher.
-/

set_option maxRecDepth 8000

/-- The character class of the JavaScript regex `\s` (ASCII part; the source
queries contain only ASCII). -/
def isJsSpace (c : Char) : Bool :=
  c = ' ' || c = '\t' || c = '\n' || c = '\r' || c = '\x0b' || c = '\x0c'

/-- Case-insensitive character comparison, as performed by the `i` regex flag
on ASCII input. -/
def ciEq (a b : Char) : Bool :=
  a.toLower = b.toLower

/-- Match a literal pattern case-insensitively at the start of the input and
return the remaining input. -/
def matchCI : List Char → List Char → Option (List Char)
  | [], s => some s
  | _ :: _, [] => none
  | p :: ps, c :: cs => if ciEq c p then matchCI ps cs else none

/-- Match `\s+` at the start of the input.  In every source regex `\s+` is
followed by a non-space token, so the greedy maximal run is the unique
viable match. -/
def matchWs1 (s : List Char) : Option (List Char) :=
  match s with
  | [] => none
  | c :: cs => if isJsSpace c then some (cs.dropWhile isJsSpace) else none

/-- Match `(\d+)` at the start of the input, returning the digit group and
the remainder.  In every source regex `\d+` is followed by a non-digit
token (or the end), so the greedy maximal run is the unique viable match. -/
def matchDigits1 (s : List Char) : Option (List Char × List Char) :=
  let ds := s.takeWhile Char.isDigit
  if ds.isEmpty then none else some (ds, s.dropWhile Char.isDigit)

/-- `parseInt` on the digit group captured by `(\d+)`. -/
def parseDigits (l : List Char) : Nat :=
  l.foldl (fun a c => a * 10 + (c.toNat - '0'.toNat)) 0

/-- The JavaScript values that flow through the adapter as bind parameters:
strings, non-negative integers (all binds the routes produce), plus the
`undefined` and `NaN` values that out-of-range lookups and mixed arithmetic
produce. -/
inductive JSVal where
  | str (s : String)
  | num (n : Nat)
  | nan
  | undefinedJs
deriving DecidableEq, Repr

/-- JavaScript `ToString`, as used by template-literal interpolation. -/
def jsToString : JSVal → String
  | .str s => s
  | .num n => Nat.repr n
  | .nan => "NaN"
  | .undefinedJs => "undefined"

/-- The JavaScript `+` operator restricted to the values above: numeric
addition on two numbers, string concatenation when either side is a string,
`NaN` otherwise (`undefined + number`, etc.). -/
def jsAdd : JSVal → JSVal → JSVal
  | .num a, .num b => .num (a + b)
  | .str a, b => .str (a ++ jsToString b)
  | a, .str b => .str (jsToString a ++ b)
  | _, _ => .nan

/-- JavaScript array indexing `params[i]`: `undefined` when out of range
(including the negative index `parseInt - 1` can produce). -/
def jsIndex (l : List JSVal) (i : Int) : JSVal :=
  if i < 0 then .undefinedJs else l.getD i.toNat .undefinedJs

/-- `params.filter((_, i) => i !== a && i !== b)` — the callback sees the
0-based position as a JavaScript number, compared against possibly negative
indices, hence `Int`. -/
def filterIdxAux (a b : Int) : List JSVal → Int → List JSVal
  | [], _ => []
  | v :: vs, i =>
    if i ≠ a ∧ i ≠ b then v :: filterIdxAux a b vs (i + 1)
    else filterIdxAux a b vs (i + 1)

def filterIdx (l : List JSVal) (a b : Int) : List JSVal :=
  filterIdxAux a b l 0

/-- The Oracle bind object `{ "1": v1, "2": v2, ... }` built by
`params.forEach((val, i) => { binds[String(i + 1)] = val })` (line 57 of the
adapter); the keys `"1"`, `"2"`, ... are distinct, so an insertion-ordered
association list is an exact model. -/
def bindsOf (l : List JSVal) : List (String × JSVal) :=
  l.enum.map (fun p => (Nat.repr (p.1 + 1), p.2))

/-!  `sql.replace(/\$(\d+)/g, ':$1')` (line 31) and
`sql.replace(/\$(\d+)/g, '@p$1')` (line 67): scan left to right; at a `$`
followed by at least one digit, emit the dialect placeholder `ph` plus the
maximal digit run and continue after it; otherwise copy the character.
Fuel-indexed so the definition is structural (the fuel is the input length,
which is always sufficient: each step consumes at least one character). -/

def dollarGo (ph : List Char) : Nat → List Char → List Char
  | 0, s => s
  | _ + 1, [] => []
  | fuel + 1, c :: cs =>
    if c = '$' then
      let ds := cs.takeWhile Char.isDigit
      if ds.isEmpty then '$' :: dollarGo ph fuel cs
      else ph ++ ds ++ dollarGo ph fuel (cs.dropWhile Char.isDigit)
    else c :: dollarGo ph fuel cs

def dollarRewrite (ph : List Char) (s : List Char) : List Char :=
  dollarGo ph s.length s

/-- Attempt `(\S+)\s+ILIKE\s+(\S+)` (lines 34 and 70) at the start of the
input; returns the two operand groups and the remainder after the match.
The leading `(\S+)` must be the whole maximal non-space run: any shorter
choice leaves a non-space character where `\s+` must match. -/
def tryIlikeAt (s : List Char) : Option (List Char × List Char × List Char) :=
  let t1 := s.takeWhile (fun c => !isJsSpace c)
  if t1.isEmpty then none else
  match matchWs1 (s.dropWhile (fun c => !isJsSpace c)) with
  | none => none
  | some s2 =>
    match matchCI "ILIKE".data s2 with
    | none => none
    | some s3 =>
      match matchWs1 s3 with
      | none => none
      | some s4 =>
        let t2 := s4.takeWhile (fun c => !isJsSpace c)
        if t2.isEmpty then none else
        some (t1, t2, s4.dropWhile (fun c => !isJsSpace c))

/-- The replacement text: `'UPPER($1) LIKE UPPER($2)'` for the Oracle
dialect (`wrap = true`), `'$1 LIKE $2'` for SQL Server (`wrap = false`). -/
def ilikeSubst (wrap : Bool) (t1 t2 : List Char) : List Char :=
  if wrap then "UPPER(".data ++ t1 ++ ") LIKE UPPER(".data ++ t2 ++ [')']
  else t1 ++ " LIKE ".data ++ t2

/-- Global replace for the ILIKE regex: try the pattern at each position,
emit the substitution and continue after the match on success, copy one
character and continue on failure — exactly the `g`-flag scan. -/
def ilikeGo (wrap : Bool) : Nat → List Char → List Char
  | 0, s => s
  | _ + 1, [] => []
  | fuel + 1, c :: cs =>
    match tryIlikeAt (c :: cs) with
    | some r => ilikeSubst wrap r.1 r.2.1 ++ ilikeGo wrap fuel r.2.2
    | none => c :: ilikeGo wrap fuel cs

def ilikeRewrite (wrap : Bool) (s : List Char) : List Char :=
  ilikeGo wrap s.length s

/-- Attempt `LIMIT\s+<ph>(\d+)\s+OFFSET\s+<ph>(\d+)` (flag `i`) at the start
of the input, where `ph` is the dialect placeholder marker (`:` on line 37,
`@p` on line 74).  Returns the two digit groups and the remainder. -/
def tryLimitAt (ph : List Char) (s : List Char) : Option (List Char × List Char × List Char) :=
  match matchCI "LIMIT".data s with
  | none => none
  | some s1 =>
    match matchWs1 s1 with
    | none => none
    | some s2 =>
      match matchCI ph s2 with
      | none => none
      | some s3 =>
        match matchDigits1 s3 with
        | none => none
        | some (d1, s4) =>
          match matchWs1 s4 with
          | none => none
          | some s5 =>
            match matchCI "OFFSET".data s5 with
            | none => none
            | some s6 =>
              match matchWs1 s6 with
              | none => none
              | some s7 =>
                match matchCI ph s7 with
                | none => none
                | some s8 =>
                  match matchDigits1 s8 with
                  | none => none
                  | some (d2, s9) => some (d1, d2, s9)

/-- `sql.match(...)` for the pagination regex: first match, capture groups
only.  (The SQL Server source regex carries a leading `\s*`; it changes
where the match starts but not which groups the leftmost match captures,
since the pattern proper begins with the non-space literal `LIMIT`.) -/
def findLimit (ph : List Char) : List Char → Option (List Char × List Char)
  | [] => none
  | c :: cs =>
    match tryLimitAt ph (c :: cs) with
    | some r => some (r.1, r.2.1)
    | none => findLimit ph cs

/-- `sql.replace(/\s*LIMIT\s+<ph>\d+\s+OFFSET\s+<ph>\d+/i, '')` (lines 43
and 80): remove the first match, including the whitespace run preceding
`LIMIT` (the greedy `\s*`; any shorter choice leaves a space where the
literal `L` must match). -/
def removeLimit (ph : List Char) : List Char → List Char
  | [] => []
  | c :: cs =>
    match tryLimitAt ph ((c :: cs).dropWhile isJsSpace) with
    | some r => r.2.2
    | none => c :: removeLimit ph cs

/-- Attempt `COUNT\(\*\)\s+as\s+total` (flags `gi`, line 52) at the start of
the input. -/
def tryCountAt (s : List Char) : Option (List Char) :=
  match matchCI "COUNT(*)".data s with
  | none => none
  | some s1 =>
    match matchWs1 s1 with
    | none => none
    | some s2 =>
      match matchCI "as".data s2 with
      | none => none
      | some s3 =>
        match matchWs1 s3 with
        | none => none
        | some s4 => matchCI "total".data s4

/-- Global replace of the count-alias pattern with `'COUNT(*) total'`. -/
def countGo : Nat → List Char → List Char
  | 0, s => s
  | _ + 1, [] => []
  | fuel + 1, c :: cs =>
    match tryCountAt (c :: cs) with
    | some rest => "COUNT(*) total".data ++ countGo fuel rest
    | none => c :: countGo fuel cs

def countRewrite (s : List Char) : List Char :=
  countGo s.length s

/-- Result record of `translateToOracle`: `{ sql, binds, filteredParams }`. -/
structure OracleResult where
  sql : List Char
  binds : List (String × JSVal)
  filteredParams : List JSVal
deriving DecidableEq, Repr

/-- The Oracle 11g ROWNUM wrapping template (lines 44-47), with the two
interpolated literals `offset + limit` and `offset`. -/
def rowTemplate (inner : List Char) (upper lower : JSVal) : List Char :=
  "SELECT * FROM (\n      SELECT a.*, ROWNUM rn FROM (".data ++ inner ++
  ") a\n      WHERE ROWNUM <= ".data ++ (jsToString upper).data ++
  "\n    ) WHERE rn > ".data ++ (jsToString lower).data

/-- `translateToOracle` (lines 27-61).  `params` is always an array at the
call sites (`params ? [...params] : []`), and a JavaScript array is truthy,
so the guard `limitMatch && params` reduces to the match test. -/
def translateToOracle (text : List Char) (params : List JSVal) : OracleResult :=
  let sql1 := dollarRewrite [':'] text
  let sql2 := ilikeRewrite true sql1
  let r : List Char × List JSVal :=
    match findLimit [':'] sql2 with
    | some (d1, d2) =>
      let limitIdx : Int := (parseDigits d1 : Int) - 1
      let offsetIdx : Int := (parseDigits d2 : Int) - 1
      let lim := jsIndex params limitIdx
      let off := jsIndex params offsetIdx
      (rowTemplate (removeLimit [':'] sql2) (jsAdd off lim) off,
       filterIdx params limitIdx offsetIdx)
    | none => (sql2, params)
  { sql := countRewrite r.1, binds := bindsOf r.2, filteredParams := r.2 }

/-- Result record of `translateToMssql`: `{ sql, filteredParams }`. -/
structure MssqlResult where
  sql : List Char
  filteredParams : List JSVal
deriving DecidableEq, Repr

/-- The SQL Server 2012+ pagination suffix (line 81), with interpolated
literals. -/
def fetchSuffix (off lim : JSVal) : List Char :=
  " OFFSET ".data ++ (jsToString off).data ++ " ROWS FETCH NEXT ".data ++
  (jsToString lim).data ++ " ROWS ONLY".data

/-- `translateToMssql` (lines 63-86). -/
def translateToMssql (text : List Char) (params : List JSVal) : MssqlResult :=
  let sql1 := dollarRewrite "@p".data text
  let sql2 := ilikeRewrite false sql1
  match findLimit "@p".data sql2 with
  | some (d1, d2) =>
    let limitIdx : Int := (parseDigits d1 : Int) - 1
    let offsetIdx : Int := (parseDigits d2 : Int) - 1
    let lim := jsIndex params limitIdx
    let off := jsIndex params offsetIdx
    { sql := removeLimit "@p".data sql2 ++ fetchSuffix off lim,
      filteredParams := filterIdx params limitIdx offsetIdx }
  | none => { sql := sql2, filteredParams := params }

/-!  Row normalization (lines 92-100).  A result row is a JavaScript object;
`Object.entries` enumerates it in insertion order and keys are distinct, so
we model a row as an insertion-ordered association list.  The assignment
`lower[k.toLowerCase()] = v` updates an existing key in place (keeping its
position) or appends a fresh one — exactly JavaScript object assignment. -/

/-- JavaScript `String#toLowerCase` on the ASCII column names the drivers
return, as an executable character map. -/
def jsToLowerCase (s : String) : String :=
  String.mk (s.data.map Char.toLower)

/-- JavaScript object assignment `o[k] = v` on the ordered-entry model. -/
def objSet (o : List (String × JSVal)) (k : String) (v : JSVal) :
    List (String × JSVal) :=
  if o.any (fun p => p.1 = k) then
    o.map (fun p => if p.1 = k then (k, v) else p)
  else o ++ [(k, v)]

/-- The body of `lowercaseKeys` for one row. -/
def lowercaseRow (row : List (String × JSVal)) : List (String × JSVal) :=
  row.foldl (fun acc p => objSet acc (jsToLowerCase p.1) p.2) []

/-- `lowercaseKeys` (lines 92-100). -/
def lowercaseKeys (rows : List (List (String × JSVal))) :
    List (List (String × JSVal)) :=
  rows.map lowercaseRow

/-- Number of fields of a normalized row carrying a given key. -/
def keyCount (k : String) (row : List (String × JSVal)) : Nat :=
  (row.filter (fun p => p.1 = k)).length

/-- First field with the given key (in a normalized row the key occurs at
most once, so this is the binding). -/
def assocLookup (k : String) (row : List (String × JSVal)) : Option JSVal :=
  (row.find? (fun p => p.1 = k)).map (fun p => p.2)

/-- Value of the latest field of `row`, in insertion order, whose key
lowercases to `k`. -/
def lastLoweredValue (k : String) (row : List (String × JSVal)) : Option JSVal :=
  (row.reverse.find? (fun p => jsToLowerCase p.1 = k)).map (fun p => p.2)

/-!  Backend mode selection and lifecycle (lines 17-19 and 106-235). -/

/-- The four backend modes of the adapter. -/
inductive Mode where
  | demo
  | mssql
  | oracle
  | postgresql
deriving DecidableEq, Repr

/-- The environment signals the adapter reads for mode selection.  A
JavaScript environment variable is a string or `undefined`; `!!v` is true
exactly for a present, non-empty string, and `DEMO_MODE === 'true'` compares
against the exact string. -/
structure Env where
  demoMode : Option String
  mssqlServer : Option String
  oracleUser : Option String

/-- JavaScript truthiness of an environment variable. -/
def envTruthy : Option String → Bool
  | none => false
  | some s => !s.isEmpty

/-- `FORCE_DEMO` (line 17). -/
def FORCE_DEMO (e : Env) : Bool := e.demoMode = some "true"

/-- `USE_MSSQL` (line 18). -/
def USE_MSSQL (e : Env) : Bool := !FORCE_DEMO e && envTruthy e.mssqlServer

/-- `USE_ORACLE` (line 19). -/
def USE_ORACLE (e : Env) : Bool :=
  !FORCE_DEMO e && !USE_MSSQL e && envTruthy e.oracleUser

/-- The `if/else if` chain selecting the branch whose body sets `mode`
(lines 106, 115, 162, 213 set it at 107, 118, 172, 224). -/
def selectMode (e : Env) : Mode :=
  if FORCE_DEMO e then Mode.demo
  else if USE_MSSQL e then Mode.mssql
  else if USE_ORACLE e then Mode.oracle
  else Mode.postgresql

/-- The runtime events that assign to the module-level `mode` variable after
startup: the connection promise settling (lines 132-139, 184-191) and the
PostgreSQL liveness probe failing (lines 231-234). -/
inductive DbEvent where
  | connectSucceeded
  | connectFailed
  | probeFailed
deriving DecidableEq, Repr

/-- Every runtime assignment to `mode`: the two `.catch` handlers (line 138,
line 190) and the probe handler (line 233) all assign the literal `'demo'`;
a successful connection assigns only `pool` and leaves `mode` unchanged. -/
def modeStep (m : Mode) : DbEvent → Mode
  | .connectSucceeded => m
  | .connectFailed => Mode.demo
  | .probeFailed => Mode.demo

/-- Whether the startup connection attempt (`sql.connect` /
`oracledb.createPool`) succeeded; `query` awaits this before anything else. -/
inductive InitOutcome where
  | ok
  | failed
deriving DecidableEq, Repr

/-- The mode observed after `await poolReady` resolves, given the mode the
branch selected at startup: the `.catch` handler demotes to demo on
failure. -/
def postInitMode (m : Mode) : InitOutcome → Mode
  | .ok => m
  | .failed => Mode.demo

/-- The SQL Server `query` (lines 141-156): await `poolReady`, re-check
`mode`, short-circuit to `[]` in demo, otherwise translate, run the request
against the pool (abstracted as `exec`) and normalize the rows. -/
def mssqlQuery (o : InitOutcome)
    (exec : List Char → List JSVal → List (List (String × JSVal)))
    (text : List Char) (ps : List JSVal) : List (List (String × JSVal)) :=
  if postInitMode Mode.mssql o = Mode.demo then []
  else
    let t := translateToMssql text ps
    lowercaseKeys (exec t.sql t.filteredParams)

/-- The Oracle `query` (lines 193-207): same shape, passing the name-keyed
bind object. -/
def oracleQuery (o : InitOutcome)
    (exec : List Char → List (String × JSVal) → List (List (String × JSVal)))
    (text : List Char) (ps : List JSVal) : List (List (String × JSVal)) :=
  if postInitMode Mode.oracle o = Mode.demo then []
  else
    let t := translateToOracle text ps
    lowercaseKeys (exec t.sql t.binds)

/-- The PostgreSQL `query` (lines 226-229): it runs the text against the
pool directly — no await of any initialization, no re-check of `mode`. -/
def pgQuery (exec : List Char → List JSVal → List (List (String × JSVal)))
    (text : List Char) (ps : List JSVal) : List (List (String × JSVal)) :=
  exec text ps

/-!  Decidable side conditions expressing that a region of a canonical query
is inert for a given scanner: every attempt starting inside the region (with
the rest of the query following it) fails.  These formalize, through the
translator itself, what the specification grammar guarantees of canonical
queries: a single pagination clause at the end, case-insensitive comparisons
only where stated, and so on. -/

/-- No occurrence of the ILIKE pattern starts inside `g` when followed by
`t`. -/
def ilikeScanClear : List Char → List Char → Bool
  | [], _ => true
  | c :: cs, t => (tryIlikeAt ((c :: cs) ++ t)).isNone && ilikeScanClear cs t

/-- No occurrence of the pagination-match pattern starts inside `g` when
followed by `t`. -/
def limitScanClear (ph : List Char) : List Char → List Char → Bool
  | [], _ => true
  | c :: cs, t => (tryLimitAt ph ((c :: cs) ++ t)).isNone && limitScanClear ph cs t

/-- No occurrence of the pagination-removal pattern (leading `\s*`) starts
inside `g` when followed by `t`. -/
def removeScanClear (ph : List Char) : List Char → List Char → Bool
  | [], _ => true
  | c :: cs, t =>
    (tryLimitAt ph (((c :: cs) ++ t).dropWhile isJsSpace)).isNone &&
    removeScanClear ph cs t

/-- The whole text is inert for the ILIKE scanner. -/
def hasIlikeMatch (s : List Char) : Bool :=
  !ilikeScanClear s []

/-- The whole text is inert for the count-alias scanner. -/
def countScanClear : List Char → Bool
  | [] => true
  | c :: cs => (tryCountAt (c :: cs)).isNone && countScanClear cs

/-!  Helper lemmas: basic facts about the scanner primitives, fuel
irrelevance for the fueled global-replace loops, and their one-step
unfolding equations. -/

theorem length_dropWhile_le (p : Char → Bool) (l : List Char) :
    (l.dropWhile p).length ≤ l.length := by
  induction l with
  | nil => simp [List.dropWhile]
  | cons c cs ih =>
    by_cases h : p c
    · simp [List.dropWhile, h]
      omega
    · simp [List.dropWhile, h]

theorem length_dropWhile_lt (p : Char → Bool) (l : List Char)
    (h : ¬(l.takeWhile p).isEmpty) : (l.dropWhile p).length < l.length := by
  cases l with
  | nil => simp [List.takeWhile] at h
  | cons c cs =>
    by_cases hc : p c
    · simp only [List.dropWhile, hc]
      have := length_dropWhile_le p cs
      simp only [List.length_cons]
      omega
    · simp [List.takeWhile, hc] at h

theorem matchCI_some_length {p s r : List Char} (h : matchCI p s = some r) :
    r.length ≤ s.length := by
  induction p generalizing s with
  | nil =>
    simp [matchCI] at h
    subst h
    exact Nat.le_refl _
  | cons a ps ih =>
    cases s with
    | nil => simp [matchCI] at h
    | cons c cs =>
      simp only [matchCI] at h
      by_cases hc : ciEq c a
      · simp [hc] at h
        have := ih h
        simp only [List.length_cons]
        omega
      · simp [hc] at h

theorem matchWs1_some_length {s r : List Char} (h : matchWs1 s = some r) :
    r.length < s.length := by
  cases s with
  | nil => simp [matchWs1] at h
  | cons c cs =>
    simp only [matchWs1] at h
    by_cases hc : isJsSpace c
    · simp [hc] at h
      subst h
      have := length_dropWhile_le isJsSpace cs
      simp only [List.length_cons]
      omega
    · simp [hc] at h

theorem tryIlikeAt_some_length {s : List Char}
    {r : List Char × List Char × List Char}
    (h : tryIlikeAt s = some r) : r.2.2.length < s.length := by
  simp only [tryIlikeAt] at h
  split at h
  · simp at h
  · rename_i h1
    split at h
    · simp at h
    · rename_i s2 hw1
      split at h
      · simp at h
      · rename_i s3 hci
        split at h
        · simp at h
        · rename_i s4 hw2
          split at h
          · simp at h
          · simp only [Option.some.injEq] at h
            subst h
            have hd1 : (s.dropWhile (fun c => !isJsSpace c)).length < s.length :=
              length_dropWhile_lt _ _ (by simpa using h1)
            have hl2 := matchWs1_some_length hw1
            have hl3 := matchCI_some_length hci
            have hl4 := matchWs1_some_length hw2
            have hl5 := length_dropWhile_le (fun c => !isJsSpace c) s4
            simp only []
            omega

theorem tryCountAt_some_length {s r : List Char}
    (h : tryCountAt s = some r) : r.length < s.length := by
  simp only [tryCountAt] at h
  split at h
  · simp at h
  · rename_i s1 h1
    split at h
    · simp at h
    · rename_i s2 h2
      split at h
      · simp at h
      · rename_i s3 h3
        split at h
        · simp at h
        · rename_i s4 h4
          have l1 := matchCI_some_length h1
          have l2 := matchWs1_some_length h2
          have l3 := matchCI_some_length h3
          have l4 := matchWs1_some_length h4
          have l5 := matchCI_some_length h
          have : ("COUNT(*)".data).length = 8 := by decide
          omega

theorem dollarGo_congr (ph : List Char) :
    ∀ (n f₁ f₂ : Nat) (s : List Char), s.length ≤ n → s.length ≤ f₁ →
      s.length ≤ f₂ → dollarGo ph f₁ s = dollarGo ph f₂ s := by
  intro n
  induction n with
  | zero =>
    intro f₁ f₂ s hn _ _
    have : s = [] := List.length_eq_zero.mp (Nat.le_zero.mp hn)
    subst this
    cases f₁ <;> cases f₂ <;> rfl
  | succ n ih =>
    intro f₁ f₂ s hn h1 h2
    cases s with
    | nil => cases f₁ <;> cases f₂ <;> rfl
    | cons c cs =>
      simp only [List.length_cons] at hn h1 h2
      cases f₁ with
      | zero => omega
      | succ f₁ =>
        cases f₂ with
        | zero => omega
        | succ f₂ =>
          simp only [dollarGo]
          by_cases hc : c = '$'
          · simp only [hc, if_true]
            by_cases hds : (cs.takeWhile Char.isDigit).isEmpty
            · simp only [hds, if_true]
              rw [ih f₁ f₂ cs (by omega) (by omega) (by omega)]
            · simp only [hds, if_false, Bool.false_eq_true]
              have hd := length_dropWhile_le Char.isDigit cs
              rw [ih f₁ f₂ (cs.dropWhile Char.isDigit) (by omega) (by omega)
                    (by omega)]
          · simp only [hc, if_false]
            rw [ih f₁ f₂ cs (by omega) (by omega) (by omega)]

theorem dollarRewrite_nil (ph : List Char) : dollarRewrite ph [] = [] := rfl

theorem dollarRewrite_cons (ph : List Char) (c : Char) (cs : List Char) :
    dollarRewrite ph (c :: cs) =
      if c = '$' then
        if (cs.takeWhile Char.isDigit).isEmpty then '$' :: dollarRewrite ph cs
        else ph ++ cs.takeWhile Char.isDigit ++
          dollarRewrite ph (cs.dropWhile Char.isDigit)
      else c :: dollarRewrite ph cs := by
  show dollarGo ph (cs.length + 1) (c :: cs) = _
  simp only [dollarGo, dollarRewrite]
  by_cases hc : c = '$'
  · simp only [hc, if_true]
    by_cases hds : (cs.takeWhile Char.isDigit).isEmpty
    · simp [hds]
    · simp only [hds, if_false, Bool.false_eq_true]
      have hd := length_dropWhile_le Char.isDigit cs
      rw [dollarGo_congr ph cs.length cs.length
            ((cs.dropWhile Char.isDigit).length) (cs.dropWhile Char.isDigit)
            (by omega) (by omega) (by omega)]
  · simp [hc]

theorem dollarRewrite_cons_ne (ph : List Char) {c : Char} (cs : List Char)
    (h : c ≠ '$') : dollarRewrite ph (c :: cs) = c :: dollarRewrite ph cs := by
  rw [dollarRewrite_cons]
  simp [h]

theorem ilikeGo_congr (wrap : Bool) :
    ∀ (n f₁ f₂ : Nat) (s : List Char), s.length ≤ n → s.length ≤ f₁ →
      s.length ≤ f₂ → ilikeGo wrap f₁ s = ilikeGo wrap f₂ s := by
  intro n
  induction n with
  | zero =>
    intro f₁ f₂ s hn _ _
    have : s = [] := List.length_eq_zero.mp (Nat.le_zero.mp hn)
    subst this
    cases f₁ <;> cases f₂ <;> rfl
  | succ n ih =>
    intro f₁ f₂ s hn h1 h2
    cases s with
    | nil => cases f₁ <;> cases f₂ <;> rfl
    | cons c cs =>
      simp only [List.length_cons] at hn h1 h2
      cases f₁ with
      | zero => omega
      | succ f₁ =>
        cases f₂ with
        | zero => omega
        | succ f₂ =>
          cases hr : tryIlikeAt (c :: cs) with
          | some r =>
            have hlt := tryIlikeAt_some_length hr
            simp only [List.length_cons] at hlt
            simp only [ilikeGo, hr]
            rw [ih f₁ f₂ r.2.2 (by omega) (by omega) (by omega)]
          | none =>
            simp only [ilikeGo, hr]
            rw [ih f₁ f₂ cs (by omega) (by omega) (by omega)]

theorem ilikeRewrite_nil (wrap : Bool) : ilikeRewrite wrap [] = [] := rfl

theorem ilikeRewrite_cons_match (wrap : Bool) (c : Char) (cs : List Char)
    (r : List Char × List Char × List Char)
    (hr : tryIlikeAt (c :: cs) = some r) :
    ilikeRewrite wrap (c :: cs) =
      ilikeSubst wrap r.1 r.2.1 ++ ilikeRewrite wrap r.2.2 := by
  have hlt := tryIlikeAt_some_length hr
  simp only [List.length_cons] at hlt
  show ilikeGo wrap (cs.length + 1) (c :: cs) = _
  simp only [ilikeGo, hr, ilikeRewrite]
  rw [ilikeGo_congr wrap cs.length cs.length r.2.2.length r.2.2 (by omega)
        (by omega) (by omega)]

theorem ilikeRewrite_cons_none (wrap : Bool) (c : Char) (cs : List Char)
    (hr : tryIlikeAt (c :: cs) = none) :
    ilikeRewrite wrap (c :: cs) = c :: ilikeRewrite wrap cs := by
  show ilikeGo wrap (cs.length + 1) (c :: cs) = _
  simp only [ilikeGo, hr, ilikeRewrite]

theorem countGo_congr :
    ∀ (n f₁ f₂ : Nat) (s : List Char), s.length ≤ n → s.length ≤ f₁ →
      s.length ≤ f₂ → countGo f₁ s = countGo f₂ s := by
  intro n
  induction n with
  | zero =>
    intro f₁ f₂ s hn _ _
    have : s = [] := List.length_eq_zero.mp (Nat.le_zero.mp hn)
    subst this
    cases f₁ <;> cases f₂ <;> rfl
  | succ n ih =>
    intro f₁ f₂ s hn h1 h2
    cases s with
    | nil => cases f₁ <;> cases f₂ <;> rfl
    | cons c cs =>
      simp only [List.length_cons] at hn h1 h2
      cases f₁ with
      | zero => omega
      | succ f₁ =>
        cases f₂ with
        | zero => omega
        | succ f₂ =>
          cases hr : tryCountAt (c :: cs) with
          | some rest =>
            have hlt := tryCountAt_some_length hr
            simp only [List.length_cons] at hlt
            simp only [countGo, hr]
            rw [ih f₁ f₂ rest (by omega) (by omega) (by omega)]
          | none =>
            simp only [countGo, hr]
            rw [ih f₁ f₂ cs (by omega) (by omega) (by omega)]

theorem countRewrite_nil : countRewrite [] = [] := rfl

theorem countRewrite_cons_match (c : Char) (cs : List Char) (rest : List Char)
    (hr : tryCountAt (c :: cs) = some rest) :
    countRewrite (c :: cs) = "COUNT(*) total".data ++ countRewrite rest := by
  have hlt := tryCountAt_some_length hr
  simp only [List.length_cons] at hlt
  show countGo (cs.length + 1) (c :: cs) = _
  simp only [countGo, hr, countRewrite]
  rw [countGo_congr cs.length cs.length rest.length rest (by omega) (by omega)
        (by omega)]

theorem countRewrite_cons_none (c : Char) (cs : List Char)
    (hr : tryCountAt (c :: cs) = none) :
    countRewrite (c :: cs) = c :: countRewrite cs := by
  show countGo (cs.length + 1) (c :: cs) = _
  simp only [countGo, hr, countRewrite]

/-!  The scan-clear conditions do what they promise: an inert region is
copied verbatim and the scan proceeds in the rest. -/

theorem ilikeScanClear_spec (wrap : Bool) :
    ∀ (g t : List Char), ilikeScanClear g t = true →
      ilikeRewrite wrap (g ++ t) = g ++ ilikeRewrite wrap t := by
  intro g
  induction g with
  | nil => intro t _; rfl
  | cons c cs ih =>
    intro t h
    simp only [ilikeScanClear, Bool.and_eq_true, Option.isNone_iff_eq_none]
      at h
    rw [List.cons_append, ilikeRewrite_cons_none wrap c (cs ++ t)
          (by simpa using h.1), ih t h.2]
    simp

theorem hasIlikeMatch_false_id (wrap : Bool) (s : List Char)
    (h : hasIlikeMatch s = false) : ilikeRewrite wrap s = s := by
  have hc : ilikeScanClear s [] = true := by
    simpa [hasIlikeMatch] using h
  have := ilikeScanClear_spec wrap s [] hc
  simpa [ilikeRewrite_nil] using this

theorem limitScanClear_spec (ph : List Char) :
    ∀ (g t : List Char), limitScanClear ph g t = true →
      findLimit ph (g ++ t) = findLimit ph t := by
  intro g
  induction g with
  | nil => intro t _; rfl
  | cons c cs ih =>
    intro t h
    simp only [limitScanClear, Bool.and_eq_true, Option.isNone_iff_eq_none]
      at h
    rw [List.cons_append]
    show findLimit ph (c :: (cs ++ t)) = _
    simp only [findLimit]
    rw [show (c :: (cs ++ t)) = (c :: cs) ++ t from rfl, h.1, ih t h.2]

theorem removeScanClear_spec (ph : List Char) :
    ∀ (g t : List Char), removeScanClear ph g t = true →
      removeLimit ph (g ++ t) = g ++ removeLimit ph t := by
  intro g
  induction g with
  | nil => intro t _; rfl
  | cons c cs ih =>
    intro t h
    simp only [removeScanClear, Bool.and_eq_true, Option.isNone_iff_eq_none]
      at h
    rw [List.cons_append]
    show removeLimit ph (c :: (cs ++ t)) = _
    simp only [removeLimit]
    rw [show (c :: (cs ++ t)) = (c :: cs) ++ t from rfl, h.1]
    simp [ih t h.2]

theorem countScanClear_id :
    ∀ (s : List Char), countScanClear s = true → countRewrite s = s := by
  intro s
  induction s with
  | nil => intro _; rfl
  | cons c cs ih =>
    intro h
    simp only [countScanClear, Bool.and_eq_true, Option.isNone_iff_eq_none]
      at h
    rw [countRewrite_cons_none c cs h.1, ih h.2]

/-!  Behaviour of the matchers on the canonical pagination clause. -/

theorem matchCI_self_append : ∀ (p r : List Char), matchCI p (p ++ r) = some r := by
  intro p
  induction p with
  | nil => intro r; rfl
  | cons c cs ih =>
    intro r
    simp only [List.cons_append, matchCI, ciEq]
    simp [ih r]

theorem matchCI_cons_ne {p c : Char} (ps cs : List Char)
    (h : ciEq c p = false) : matchCI (p :: ps) (c :: cs) = none := by
  simp [matchCI, h]

theorem takeWhile_all_append {p : Char → Bool} :
    ∀ (ds r : List Char), (∀ c ∈ ds, p c = true) →
      (ds ++ r).takeWhile p = ds ++ r.takeWhile p := by
  intro ds
  induction ds with
  | nil => intro r _; rfl
  | cons c cs ih =>
    intro r h
    have hc : p c = true := h c (by simp)
    simp only [List.cons_append, List.takeWhile_cons_of_pos hc]
    rw [ih r (fun d hd => h d (by simp [hd]))]

theorem dropWhile_all_append {p : Char → Bool} :
    ∀ (ds r : List Char), (∀ c ∈ ds, p c = true) →
      (ds ++ r).dropWhile p = r.dropWhile p := by
  intro ds
  induction ds with
  | nil => intro r _; rfl
  | cons c cs ih =>
    intro r h
    have hc : p c = true := h c (by simp)
    simp only [List.cons_append, List.dropWhile_cons_of_pos hc]
    exact ih r (fun d hd => h d (by simp [hd]))

theorem takeWhile_head_neg {p : Char → Bool} (r : List Char)
    (h : ∀ c, r.head? = some c → p c = false) : r.takeWhile p = [] := by
  cases r with
  | nil => rfl
  | cons c cs =>
    have := h c rfl
    simp [List.takeWhile_cons_of_neg, this]

theorem dropWhile_head_neg {p : Char → Bool} (r : List Char)
    (h : ∀ c, r.head? = some c → p c = false) : r.dropWhile p = r := by
  cases r with
  | nil => rfl
  | cons c cs =>
    have := h c rfl
    simp [List.dropWhile_cons_of_neg, this]

theorem matchDigits1_digits_append (ds r : List Char)
    (hds : ∀ c ∈ ds, c.isDigit = true) (hne : ds ≠ [])
    (hr : ∀ c, r.head? = some c → c.isDigit = false) :
    matchDigits1 (ds ++ r) = some (ds, r) := by
  simp only [matchDigits1]
  rw [takeWhile_all_append ds r hds, takeWhile_head_neg r hr,
      dropWhile_all_append ds r hds, dropWhile_head_neg r hr]
  simp [hne]

theorem tryLimitAt_clause (ph ds₁ ds₂ : List Char)
    (hph : ∀ c, ph.head? = some c → isJsSpace c = false) (hphne : ph ≠ [])
    (hd1 : ∀ c ∈ ds₁, c.isDigit = true) (h1ne : ds₁ ≠ [])
    (hd2 : ∀ c ∈ ds₂, c.isDigit = true) (h2ne : ds₂ ≠ []) :
    tryLimitAt ph
      ("LIMIT ".data ++ (ph ++ (ds₁ ++ (" OFFSET ".data ++ (ph ++ ds₂))))) =
      some (ds₁, ds₂, []) := by
  cases ph with
  | nil => exact absurd rfl hphne
  | cons p tl =>
    have hp : isJsSpace p = false := hph p rfl
    have e1 : matchCI "LIMIT".data
        ("LIMIT ".data ++
          ((p :: tl) ++ (ds₁ ++ (" OFFSET ".data ++ ((p :: tl) ++ ds₂))))) =
        some (' ' ::
          ((p :: tl) ++ (ds₁ ++ (" OFFSET ".data ++ ((p :: tl) ++ ds₂))))) :=
      matchCI_self_append "LIMIT".data _
    have e2 : matchWs1 (' ' ::
        ((p :: tl) ++ (ds₁ ++ (" OFFSET ".data ++ ((p :: tl) ++ ds₂))))) =
        some ((p :: tl) ++ (ds₁ ++ (" OFFSET ".data ++ ((p :: tl) ++ ds₂)))) := by
      simp only [matchWs1, List.cons_append]
      rw [if_pos (by decide)]
      rw [List.dropWhile_cons_of_neg (by simp [hp])]
    have e3 : matchCI (p :: tl)
        ((p :: tl) ++ (ds₁ ++ (" OFFSET ".data ++ ((p :: tl) ++ ds₂)))) =
        some (ds₁ ++ (" OFFSET ".data ++ ((p :: tl) ++ ds₂))) :=
      matchCI_self_append (p :: tl) _
    have e4 : matchDigits1 (ds₁ ++ (" OFFSET ".data ++ ((p :: tl) ++ ds₂))) =
        some (ds₁, " OFFSET ".data ++ ((p :: tl) ++ ds₂)) :=
      matchDigits1_digits_append ds₁ _ hd1 h1ne (by
        intro c hc
        simp at hc
        subst hc
        decide)
    have e5 : matchWs1 (" OFFSET ".data ++ ((p :: tl) ++ ds₂)) =
        some ("OFFSET ".data ++ ((p :: tl) ++ ds₂)) := rfl
    have e6 : matchCI "OFFSET".data ("OFFSET ".data ++ ((p :: tl) ++ ds₂)) =
        some (' ' :: ((p :: tl) ++ ds₂)) :=
      matchCI_self_append "OFFSET".data _
    have e7 : matchWs1 (' ' :: ((p :: tl) ++ ds₂)) =
        some ((p :: tl) ++ ds₂) := by
      simp only [matchWs1, List.cons_append]
      rw [if_pos (by decide)]
      rw [List.dropWhile_cons_of_neg (by simp [hp])]
    have e8 : matchCI (p :: tl) ((p :: tl) ++ ds₂) = some ds₂ :=
      matchCI_self_append (p :: tl) _
    have e9 : matchDigits1 ds₂ = some (ds₂, []) := by
      have := matchDigits1_digits_append ds₂ [] hd2 h2ne (by simp)
      simpa using this
    simp only [tryLimitAt, e1, e2, e3, e4, e5, e6, e7, e8, e9]

theorem tryLimitAt_space_none (ph : List Char) (rest : List Char) :
    tryLimitAt ph (' ' :: rest) = none := by
  simp only [tryLimitAt]
  rw [matchCI_cons_ne _ _ (by decide)]

theorem findLimit_cons_none (ph : List Char) (c : Char) (cs : List Char)
    (h : tryLimitAt ph (c :: cs) = none) :
    findLimit ph (c :: cs) = findLimit ph cs := by
  simp only [findLimit, h]

theorem findLimit_cons_some (ph : List Char) (c : Char) (cs : List Char)
    (r : List Char × List Char × List Char)
    (h : tryLimitAt ph (c :: cs) = some r) :
    findLimit ph (c :: cs) = some (r.1, r.2.1) := by
  simp only [findLimit, h]

theorem removeLimit_cons_some (ph : List Char) (c : Char) (cs : List Char)
    (r : List Char × List Char × List Char)
    (h : tryLimitAt ph ((c :: cs).dropWhile isJsSpace) = some r) :
    removeLimit ph (c :: cs) = r.2.2 := by
  simp only [removeLimit, h]

theorem findLimit_clause (ph ds₁ ds₂ : List Char)
    (hph : ∀ c, ph.head? = some c → isJsSpace c = false) (hphne : ph ≠ [])
    (hd1 : ∀ c ∈ ds₁, c.isDigit = true) (h1ne : ds₁ ≠ [])
    (hd2 : ∀ c ∈ ds₂, c.isDigit = true) (h2ne : ds₂ ≠ []) :
    findLimit ph
      (' ' :: ("LIMIT ".data ++ (ph ++ (ds₁ ++ (" OFFSET ".data ++ (ph ++ ds₂)))))) =
      some (ds₁, ds₂) := by
  have h0 := tryLimitAt_space_none ph
      ("LIMIT ".data ++ (ph ++ (ds₁ ++ (" OFFSET ".data ++ (ph ++ ds₂)))))
  have h1 : tryLimitAt ph
      ('L' :: ("IMIT ".data ++ (ph ++ (ds₁ ++ (" OFFSET ".data ++ (ph ++ ds₂)))))) =
      some (ds₁, ds₂, []) :=
    tryLimitAt_clause ph ds₁ ds₂ hph hphne hd1 h1ne hd2 h2ne
  rw [findLimit_cons_none ph ' ' _ h0]
  have h2 : findLimit ph
      ('L' :: ("IMIT ".data ++ (ph ++ (ds₁ ++ (" OFFSET ".data ++ (ph ++ ds₂)))))) =
      some (ds₁, ds₂) :=
    findLimit_cons_some ph 'L' _ (ds₁, ds₂, []) h1
  exact h2

theorem removeLimit_clause (ph ds₁ ds₂ : List Char)
    (hph : ∀ c, ph.head? = some c → isJsSpace c = false) (hphne : ph ≠ [])
    (hd1 : ∀ c ∈ ds₁, c.isDigit = true) (h1ne : ds₁ ≠ [])
    (hd2 : ∀ c ∈ ds₂, c.isDigit = true) (h2ne : ds₂ ≠ []) :
    removeLimit ph
      (' ' :: ("LIMIT ".data ++ (ph ++ (ds₁ ++ (" OFFSET ".data ++ (ph ++ ds₂)))))) =
      [] := by
  have h1 : tryLimitAt ph
      ((' ' :: ("LIMIT ".data ++ (ph ++ (ds₁ ++ (" OFFSET ".data ++ (ph ++ ds₂)))))).dropWhile
        isJsSpace) = some (ds₁, ds₂, []) := by
    rw [List.dropWhile_cons_of_pos (by decide)]
    have e : (("LIMIT ".data ++ (ph ++ (ds₁ ++ (" OFFSET ".data ++ (ph ++ ds₂))))).dropWhile
          isJsSpace) =
        "LIMIT ".data ++ (ph ++ (ds₁ ++ (" OFFSET ".data ++ (ph ++ ds₂)))) := by
      show (('L' :: ("IMIT ".data ++ (ph ++ (ds₁ ++ (" OFFSET ".data ++ (ph ++ ds₂)))))).dropWhile
          isJsSpace) = _
      rw [List.dropWhile_cons_of_neg (by decide)]
      rfl
    rw [e]
    exact tryLimitAt_clause ph ds₁ ds₂ hph hphne hd1 h1ne hd2 h2ne
  exact removeLimit_cons_some ph ' ' _ (ds₁, ds₂, []) h1

/-!  Bind-list bookkeeping: reading the limit and offset values at the last
two positions and filtering them out. -/

theorem getD_append_len :
    ∀ (qs : List JSVal) (x : JSVal) (r : List JSVal) (d : JSVal),
      (qs ++ x :: r).getD qs.length d = x := by
  intro qs
  induction qs with
  | nil => intro x r d; rfl
  | cons v vs ih =>
    intro x r d
    simpa using ih x r d

theorem jsIndex_penultimate (qs : List JSVal) (x y : JSVal) :
    jsIndex (qs ++ [x, y]) (qs.length : Int) = x := by
  simp only [jsIndex]
  rw [if_neg (by omega)]
  simpa using getD_append_len qs x [y] JSVal.undefinedJs

theorem jsIndex_last (qs : List JSVal) (x y : JSVal) :
    jsIndex (qs ++ [x, y]) ((qs.length : Int) + 1) = y := by
  simp only [jsIndex]
  rw [if_neg (by omega)]
  have h : (((qs.length : Int) + 1)).toNat = (qs ++ [x]).length := by
    simp
  rw [h]
  have := getD_append_len (qs ++ [x]) y [] JSVal.undefinedJs
  simpa [List.append_assoc] using this

theorem filterIdxAux_last_two :
    ∀ (qs : List JSVal) (x y : JSVal) (i : Int),
      filterIdxAux (i + qs.length) (i + qs.length + 1) (qs ++ [x, y]) i = qs := by
  intro qs
  induction qs with
  | nil =>
    intro x y i
    simp only [List.nil_append, List.length_nil, Nat.cast_zero, Int.add_zero,
      filterIdxAux]
    rw [if_neg (by omega)]
    rw [if_neg (by omega)]
  | cons v vs ih =>
    intro x y i
    simp only [List.cons_append, filterIdxAux, List.length_cons]
    rw [if_pos (by push_cast; omega)]
    have h2 := ih x y (i + 1)
    have harg : i + 1 + (vs.length : Int) = i + ((vs.length : Int) + 1) := by
      omega
    rw [harg] at h2
    push_cast
    exact congrArg (fun l => v :: l) h2

theorem filterIdx_last_two (qs : List JSVal) (x y : JSVal) :
    filterIdx (qs ++ [x, y]) (qs.length : Int) ((qs.length : Int) + 1) = qs := by
  have := filterIdxAux_last_two qs x y 0
  simpa [filterIdx] using this

/-!  The general pagination theorem for the row-number dialect. -/

theorem colon_head_not_space :
    ∀ c : Char, ([':'] : List Char).head? = some c → isJsSpace c = false := by
  intro c h
  simp at h
  subst h
  decide

/-- C1: for every canonical query whose pagination clause references the
limit and offset binds at the last two positions of an N-element bind list
(the clause, after placeholder rewriting, is the trailing
` LIMIT :(N-1) OFFSET :N`, and the rewritten body `rb` is inert for the
pagination scanners, as the canonical grammar guarantees), with limit value
L and offset value O non-negative integers, `translateToOracle` removes
exactly those two binds, returns the (N-2)-element remainder `qs` in its
original order, and emits the row-number template whose upper bound is the
literal O+L and whose lower bound is the literal O. -/
theorem translateToOracle_pagination
    (text rb ds₁ ds₂ : List Char) (qs : List JSVal) (L O : Nat)
    (hsql : ilikeRewrite true (dollarRewrite [':'] text) =
      rb ++ (' ' :: ("LIMIT ".data ++ ([':'] ++ (ds₁ ++ (" OFFSET ".data ++ ([':'] ++ ds₂)))))))
    (hd1 : ∀ c ∈ ds₁, c.isDigit = true) (h1ne : ds₁ ≠ [])
    (hd2 : ∀ c ∈ ds₂, c.isDigit = true) (h2ne : ds₂ ≠ [])
    (hp1 : parseDigits ds₁ = qs.length + 1)
    (hp2 : parseDigits ds₂ = qs.length + 2)
    (hfind : limitScanClear [':'] rb
      (' ' :: ("LIMIT ".data ++ ([':'] ++ (ds₁ ++ (" OFFSET ".data ++ ([':'] ++ ds₂)))))) = true)
    (hremove : removeScanClear [':'] rb
      (' ' :: ("LIMIT ".data ++ ([':'] ++ (ds₁ ++ (" OFFSET ".data ++ ([':'] ++ ds₂)))))) = true)
    (hcount : countScanClear
      (rowTemplate rb (JSVal.num (O + L)) (JSVal.num O)) = true) :
    translateToOracle text (qs ++ [JSVal.num L, JSVal.num O]) =
      { sql := rowTemplate rb (JSVal.num (O + L)) (JSVal.num O),
         binds := bindsOf qs,
         filteredParams := qs } := by
  have hfound : findLimit [':']
      (rb ++ (' ' :: ("LIMIT ".data ++ ([':'] ++ (ds₁ ++ (" OFFSET ".data ++ ([':'] ++ ds₂))))))) =
      some (ds₁, ds₂) := by
    rw [limitScanClear_spec [':'] rb _ hfind]
    exact findLimit_clause [':'] ds₁ ds₂ colon_head_not_space (by simp)
      hd1 h1ne hd2 h2ne
  have hrem : removeLimit [':']
      (rb ++ (' ' :: ("LIMIT ".data ++ ([':'] ++ (ds₁ ++ (" OFFSET ".data ++ ([':'] ++ ds₂))))))) = rb := by
    rw [removeScanClear_spec [':'] rb _ hremove]
    rw [removeLimit_clause [':'] ds₁ ds₂ colon_head_not_space (by simp)
      hd1 h1ne hd2 h2ne]
    simp
  have eL : ((qs.length + 1 : Nat) : Int) - 1 = (qs.length : Int) := by
    push_cast
    ring
  have eO : ((qs.length + 2 : Nat) : Int) - 1 = (qs.length : Int) + 1 := by
    push_cast
    ring
  simp only [translateToOracle, hsql, hfound, hp1, hp2, eL, eO]
  rw [jsIndex_penultimate qs (JSVal.num L) (JSVal.num O),
      jsIndex_last qs (JSVal.num L) (JSVal.num O), hrem,
      filterIdx_last_two qs (JSVal.num L) (JSVal.num O)]
  have hadd : jsAdd (JSVal.num O) (JSVal.num L) = JSVal.num (O + L) := rfl
  rw [hadd]
  rw [countScanClear_id _ hcount]

/-- Witness for C1: the scenario query instantiates every hypothesis. -/
theorem translateToOracle_pagination_witness :
    translateToOracle
        "SELECT * FROM t WHERE name ILIKE $1 LIMIT $2 OFFSET $3".data
        ([JSVal.str "%abc%"] ++ [JSVal.num 5, JSVal.num 10]) =
      { sql := rowTemplate
          "SELECT * FROM t WHERE UPPER(name) LIKE UPPER(:1)".data
          (JSVal.num 15) (JSVal.num 10),
        binds := bindsOf [JSVal.str "%abc%"],
        filteredParams := [JSVal.str "%abc%"] } :=
  translateToOracle_pagination
    "SELECT * FROM t WHERE name ILIKE $1 LIMIT $2 OFFSET $3".data
    "SELECT * FROM t WHERE UPPER(name) LIKE UPPER(:1)".data
    ['2'] ['3'] [JSVal.str "%abc%"] 5 10
    (by decide) (by decide) (by decide) (by decide) (by decide)
    (by decide) (by decide) (by decide) (by decide) (by decide)

/-- C2: the canonical text `SELECT * FROM t WHERE name ILIKE $1 LIMIT $2
OFFSET $3` with binds `['%abc%', 5, 10]`, translated by `translateToOracle`,
yields the sole surviving bind `'%abc%'` (keyed `"1"` in the bind object, so
`:1` references it) and the row-number query with
`WHERE UPPER(name) LIKE UPPER(:1)` nested in the wrapped subquery whose
bounds are the literals 15 and 10. -/
theorem translateToOracle_ilike_limit_scenario :
    translateToOracle
        "SELECT * FROM t WHERE name ILIKE $1 LIMIT $2 OFFSET $3".data
        [JSVal.str "%abc%", JSVal.num 5, JSVal.num 10] =
      { sql := ("SELECT * FROM (\n      SELECT a.*, ROWNUM rn FROM " ++
          "(SELECT * FROM t WHERE UPPER(name) LIKE UPPER(:1)) a\n      " ++
          "WHERE ROWNUM <= 15\n    ) WHERE rn > 10").data,
        binds := [("1", JSVal.str "%abc%")],
        filteredParams := [JSVal.str "%abc%"] } := by
  decide

/-- C3: the same canonical input translated by `translateToMssql` yields
bind list `['%abc%']` and the text with `@p1` in place of `$1`,
`name LIKE @p1`, and the trailing
`OFFSET 10 ROWS FETCH NEXT 5 ROWS ONLY`. -/
theorem translateToMssql_ilike_limit_scenario :
    translateToMssql
        "SELECT * FROM t WHERE name ILIKE $1 LIMIT $2 OFFSET $3".data
        [JSVal.str "%abc%", JSVal.num 5, JSVal.num 10] =
      { sql := ("SELECT * FROM t WHERE name LIKE @p1" ++
          " OFFSET 10 ROWS FETCH NEXT 5 ROWS ONLY").data,
        filteredParams := [JSVal.str "%abc%"] } := by
  decide

theorem dollarRewrite_no_dollar (ph : List Char) :
    ∀ (s : List Char), ('$' ∉ s) → dollarRewrite ph s = s := by
  intro s
  induction s with
  | nil => intro _; rfl
  | cons c cs ih =>
    intro h
    have hc : c ≠ '$' := by
      intro e
      exact h (by simp [e])
    rw [dollarRewrite_cons_ne ph cs hc, ih (by intro hm; exact h (by simp [hm]))]

/-- C4 (amended): for every canonical query text with no pagination clause,
no case-insensitive comparison occurrence, and — the amendment — no
`COUNT(*) as total` alias occurrence, both dialect translations change only
placeholder syntax (the output text is exactly the placeholder rewrite of
the input, so a text without the placeholder character is returned
verbatim, numerals included) and the bind list is returned with its length
and order unchanged. -/
theorem translate_passthrough (t : List Char) (ps : List JSVal)
    (ho1 : hasIlikeMatch (dollarRewrite [':'] t) = false)
    (ho2 : findLimit [':'] (dollarRewrite [':'] t) = none)
    (ho3 : countScanClear (dollarRewrite [':'] t) = true)
    (hm1 : hasIlikeMatch (dollarRewrite "@p".data t) = false)
    (hm2 : findLimit "@p".data (dollarRewrite "@p".data t) = none) :
    (translateToOracle t ps).sql = dollarRewrite [':'] t ∧
    (translateToOracle t ps).filteredParams = ps ∧
    (translateToOracle t ps).binds = bindsOf ps ∧
    (translateToMssql t ps).sql = dollarRewrite "@p".data t ∧
    (translateToMssql t ps).filteredParams = ps ∧
    ('$' ∉ t →
      (translateToOracle t ps).sql = t ∧ (translateToMssql t ps).sql = t) := by
  have hid1 := hasIlikeMatch_false_id true _ ho1
  have hid2 := hasIlikeMatch_false_id false _ hm1
  have horacle : translateToOracle t ps =
      { sql := dollarRewrite [':'] t, binds := bindsOf ps,
        filteredParams := ps } := by
    simp only [translateToOracle, hid1, ho2]
    rw [countScanClear_id _ ho3]
  have hmssql : translateToMssql t ps =
      { sql := dollarRewrite "@p".data t, filteredParams := ps } := by
    simp only [translateToMssql, hid2, hm2]
  refine ⟨by rw [horacle], by rw [horacle], by rw [horacle],
    by rw [hmssql], by rw [hmssql], ?_⟩
  intro hd
  constructor
  · rw [horacle]
    exact dollarRewrite_no_dollar [':'] t hd
  · rw [hmssql]
    exact dollarRewrite_no_dollar "@p".data t hd

/-- Witness for C4: a query with numerals inside identifiers and literals,
one placeholder, no pagination, no ILIKE, no count alias. -/
theorem translate_passthrough_witness :
    (translateToOracle "SELECT a1, b2 FROM t WHERE x = $1 AND y = 23".data
        [JSVal.num 7]).sql =
      dollarRewrite [':'] "SELECT a1, b2 FROM t WHERE x = $1 AND y = 23".data ∧
    (translateToOracle "SELECT a1, b2 FROM t WHERE x = $1 AND y = 23".data
        [JSVal.num 7]).filteredParams = [JSVal.num 7] ∧
    (translateToOracle "SELECT a1, b2 FROM t WHERE x = $1 AND y = 23".data
        [JSVal.num 7]).binds = bindsOf [JSVal.num 7] ∧
    (translateToMssql "SELECT a1, b2 FROM t WHERE x = $1 AND y = 23".data
        [JSVal.num 7]).sql =
      dollarRewrite "@p".data
        "SELECT a1, b2 FROM t WHERE x = $1 AND y = 23".data ∧
    (translateToMssql "SELECT a1, b2 FROM t WHERE x = $1 AND y = 23".data
        [JSVal.num 7]).filteredParams = [JSVal.num 7] ∧
    ('$' ∉ "SELECT a1, b2 FROM t WHERE x = $1 AND y = 23".data →
      (translateToOracle "SELECT a1, b2 FROM t WHERE x = $1 AND y = 23".data
          [JSVal.num 7]).sql =
        "SELECT a1, b2 FROM t WHERE x = $1 AND y = 23".data ∧
      (translateToMssql "SELECT a1, b2 FROM t WHERE x = $1 AND y = 23".data
          [JSVal.num 7]).sql =
        "SELECT a1, b2 FROM t WHERE x = $1 AND y = 23".data) :=
  translate_passthrough "SELECT a1, b2 FROM t WHERE x = $1 AND y = 23".data
    [JSVal.num 7] (by decide) (by decide) (by decide) (by decide) (by decide)

/-- Counterexample to C4 as stated: `SELECT COUNT(*) as total FROM t` has no
pagination clause, no case-insensitive comparison, and no placeholder at
all, yet the row-number-dialect translation changes its text (the count
alias is rewritten), so the translation does not change only placeholder
syntax. -/
theorem translate_passthrough_counterexample :
    hasIlikeMatch
      (dollarRewrite [':'] "SELECT COUNT(*) as total FROM t".data) = false ∧
    findLimit [':']
      (dollarRewrite [':'] "SELECT COUNT(*) as total FROM t".data) = none ∧
    '$' ∉ "SELECT COUNT(*) as total FROM t".data ∧
    (translateToOracle "SELECT COUNT(*) as total FROM t".data []).sql ≠
      "SELECT COUNT(*) as total FROM t".data ∧
    (translateToOracle "SELECT COUNT(*) as total FROM t".data []).sql =
      "SELECT COUNT(*) total FROM t".data := by
  decide

/-- C5 (amended): for the enterprise (mssql) and legacy (oracle) dialect
modes, every query call awaits the pending pool initialization and then
re-checks the mode; when the connection attempt failed the observed mode is
demo and the call returns the empty row sequence for every possible pool
behaviour — the pool is never consulted.  (The passthrough postgresql mode
is excluded: its query neither awaits initialization nor re-checks the
mode; see the counterexample.) -/
theorem query_waits_and_rechecks_demo :
    ∀ (exec1 : List Char → List JSVal → List (List (String × JSVal)))
      (exec2 : List Char → List (String × JSVal) → List (List (String × JSVal)))
      (text : List Char) (ps : List JSVal),
      postInitMode Mode.mssql InitOutcome.failed = Mode.demo ∧
      postInitMode Mode.oracle InitOutcome.failed = Mode.demo ∧
      mssqlQuery InitOutcome.failed exec1 text ps = [] ∧
      oracleQuery InitOutcome.failed exec2 text ps = [] := by
  intro exec1 exec2 text ps
  refine ⟨rfl, rfl, ?_, ?_⟩
  · simp [mssqlQuery, postInitMode]
  · simp [oracleQuery, postInitMode]

/-- Counterexample to C5 as stated: the passthrough (postgresql) mode is a
non-demo-selected backend mode, and after its liveness probe fails the mode
is demo; yet a query issued then still runs against the pool and returns
the pool rows instead of the empty sequence — `pgQuery` takes no account of
the mode at all. -/
theorem pg_query_ignores_demo_counterexample :
    modeStep Mode.postgresql DbEvent.probeFailed = Mode.demo ∧
    pgQuery (fun _ _ => [[("systemid", JSVal.num 1)]]) "SELECT 1".data [] =
      [[("systemid", JSVal.num 1)]] ∧
    pgQuery (fun _ _ => [[("systemid", JSVal.num 1)]]) "SELECT 1".data [] ≠
      ([] : List (List (String × JSVal))) := by
  refine ⟨rfl, rfl, ?_⟩
  simp [pgQuery]

/-- C6: the backend mode moves in one direction only.  Every runtime
assignment either leaves the mode unchanged or demotes it to demo; demo is
absorbing; consequently along every event sequence the mode is either the
starting mode or demo — never a different ready dialect, and never leaving
demo. -/
theorem mode_demotion_monotone :
    (∀ (m : Mode) (e : DbEvent), modeStep m e = m ∨ modeStep m e = Mode.demo) ∧
    (∀ (e : DbEvent), modeStep Mode.demo e = Mode.demo) ∧
    (∀ (es : List DbEvent) (m : Mode),
      es.foldl modeStep m = m ∨ es.foldl modeStep m = Mode.demo) ∧
    (∀ (es : List DbEvent), es.foldl modeStep Mode.demo = Mode.demo) := by
  have hstep : ∀ (m : Mode) (e : DbEvent),
      modeStep m e = m ∨ modeStep m e = Mode.demo := by
    intro m e
    cases e <;> simp [modeStep]
  have hdemo : ∀ (e : DbEvent), modeStep Mode.demo e = Mode.demo := by
    intro e
    cases e <;> rfl
  have htrace : ∀ (es : List DbEvent) (m : Mode),
      es.foldl modeStep m = m ∨ es.foldl modeStep m = Mode.demo := by
    intro es
    induction es with
    | nil => intro m; exact Or.inl rfl
    | cons e es ih =>
      intro m
      simp only [List.foldl_cons]
      rcases hstep m e with h | h
      · rw [h]
        exact ih m
      · rw [h]
        rcases ih Mode.demo with h2 | h2
        · exact Or.inr h2
        · exact Or.inr h2
  refine ⟨hstep, hdemo, htrace, ?_⟩
  intro es
  rcases htrace es Mode.demo with h | h
  · exact h
  · exact h

/-- C9: mode selection at process start follows the documented precedence
for every combination of environment signals: the demo flag wins, then a
truthy enterprise host (`MSSQL_SERVER`), then a truthy legacy credential
(`ORACLE_USER`), else the passthrough dialect. -/
theorem selectMode_precedence (e : Env) :
    selectMode e =
      if e.demoMode = some "true" then Mode.demo
      else if envTruthy e.mssqlServer then Mode.mssql
      else if envTruthy e.oracleUser then Mode.oracle
      else Mode.postgresql := by
  simp only [selectMode, FORCE_DEMO, USE_MSSQL, USE_ORACLE]
  by_cases h1 : e.demoMode = some "true"
  · simp [h1]
  · by_cases h2 : envTruthy e.mssqlServer
    · simp [h1, h2]
    · by_cases h3 : envTruthy e.oracleUser
      · simp [h1, h2, h3]
      · simp [h1, h2, h3]

/-!  Row-normalizer lemmas. -/

theorem map_eq_of_forall {α β : Type} (l : List α) (f g : α → β)
    (h : ∀ x ∈ l, f x = g x) : l.map f = l.map g := by
  induction l with
  | nil => rfl
  | cons x xs ih =>
    simp only [List.map_cons]
    rw [h x (by simp), ih (fun y hy => h y (by simp [hy]))]

theorem objSet_fresh (o : List (String × JSVal)) (k : String) (v : JSVal)
    (h : o.any (fun p => p.1 = k) = false) : objSet o k v = o ++ [(k, v)] := by
  simp [objSet, h]

theorem lowercaseRow_fresh :
    ∀ (row acc : List (String × JSVal)),
      (row.map (fun p => jsToLowerCase p.1)).Nodup →
      (∀ p ∈ row, acc.any (fun q => q.1 = jsToLowerCase p.1) = false) →
      row.foldl (fun a p => objSet a (jsToLowerCase p.1) p.2) acc =
        acc ++ row.map (fun p => (jsToLowerCase p.1, p.2)) := by
  intro row
  induction row with
  | nil => intro acc _ _; simp
  | cons p rest ih =>
    intro acc hnd hfresh
    simp only [List.foldl_cons]
    rw [objSet_fresh acc (jsToLowerCase p.1) p.2 (hfresh p (by simp))]
    have hnd' : (rest.map (fun p => jsToLowerCase p.1)).Nodup := by
      simp only [List.map_cons, List.nodup_cons] at hnd
      exact hnd.2
    have hnotin : jsToLowerCase p.1 ∉ rest.map (fun q => jsToLowerCase q.1) := by
      simp only [List.map_cons, List.nodup_cons] at hnd
      exact hnd.1
    have hfresh' : ∀ q ∈ rest,
        (acc ++ [(jsToLowerCase p.1, p.2)]).any (fun r => r.1 = jsToLowerCase q.1) =
          false := by
      intro q hq
      simp only [List.any_append, Bool.or_eq_false_iff]
      refine ⟨hfresh q (by simp [hq]), ?_⟩
      simp only [List.any_cons, List.any_nil, Bool.or_false]
      simp only [decide_eq_false_iff_not]
      intro e
      exact hnotin (by
        rw [e]
        exact List.mem_map_of_mem _ hq)
    rw [ih (acc ++ [(jsToLowerCase p.1, p.2)]) hnd' hfresh']
    simp

/-- C7 (amended): for every array of rows in which no two keys of a row
lowercase to the same string, `lowercaseKeys` returns the same number of
rows in the same order with every key lowercased, every value unchanged and
field order preserved; and on rows whose keys are already lowercase it
returns the input unchanged (idempotence on its own output follows, since
normalized keys are lowercase and distinct). -/
theorem lowercaseKeys_preserves (rows : List (List (String × JSVal)))
    (h : ∀ r ∈ rows, (r.map (fun p => jsToLowerCase p.1)).Nodup) :
    lowercaseKeys rows =
      rows.map (fun r => r.map (fun p => (jsToLowerCase p.1, p.2))) ∧
    ((∀ r ∈ rows, ∀ p ∈ r, jsToLowerCase p.1 = p.1) → lowercaseKeys rows = rows) := by
  have hmain : lowercaseKeys rows =
      rows.map (fun r => r.map (fun p => (jsToLowerCase p.1, p.2))) := by
    simp only [lowercaseKeys]
    refine map_eq_of_forall rows _ _ ?_
    intro r hr
    have := lowercaseRow_fresh r [] (h r hr) (by intro p _; rfl)
    simpa [lowercaseRow] using this
  refine ⟨hmain, ?_⟩
  intro hlow
  rw [hmain]
  have : ∀ r ∈ rows, r.map (fun p => (jsToLowerCase p.1, p.2)) = r := by
    intro r hr
    have : ∀ p ∈ r, (jsToLowerCase p.1, p.2) = p := by
      intro p hp
      rw [hlow r hr p hp]
    calc r.map (fun p => (jsToLowerCase p.1, p.2)) = r.map id :=
          map_eq_of_forall r _ _ this
      _ = r := List.map_id r
  calc rows.map (fun r => r.map (fun p => (jsToLowerCase p.1, p.2)))
      = rows.map id := map_eq_of_forall rows _ _ this
    _ = rows := List.map_id rows

/-- Witness for C7: one row with distinct lowercased keys (one already
lowercase, one not). -/
theorem lowercaseKeys_preserves_witness :
    lowercaseKeys [[("A", JSVal.num 1), ("b", JSVal.num 2)]] =
      [[("A", JSVal.num 1), ("b", JSVal.num 2)]].map
        (fun r => r.map (fun p => (jsToLowerCase p.1, p.2))) ∧
    ((∀ r ∈ [[("A", JSVal.num 1), ("b", JSVal.num 2)]], ∀ p ∈ r,
        jsToLowerCase p.1 = p.1) →
      lowercaseKeys [[("A", JSVal.num 1), ("b", JSVal.num 2)]] =
        [[("A", JSVal.num 1), ("b", JSVal.num 2)]]) :=
  lowercaseKeys_preserves [[("A", JSVal.num 1), ("b", JSVal.num 2)]]
    (by decide)

/-- Counterexample to C7 as stated: a row whose two distinct keys collide
after lowercasing loses a field, so the output is not the key-lowercased
image of the input. -/
theorem lowercaseKeys_collision_counterexample :
    lowercaseKeys [[("A", JSVal.num 1), ("a", JSVal.num 2)]] =
      [[("a", JSVal.num 2)]] ∧
    lowercaseKeys [[("A", JSVal.num 1), ("a", JSVal.num 2)]] ≠
      [[("A", JSVal.num 1), ("a", JSVal.num 2)]].map
        (fun r => r.map (fun p => (jsToLowerCase p.1, p.2))) := by
  decide

theorem any_key_iff_keyCount (k : String) :
    ∀ (l : List (String × JSVal)),
      l.any (fun p => p.1 = k) = true ↔ keyCount k l ≠ 0 := by
  intro l
  induction l with
  | nil => simp [keyCount]
  | cons q l ih =>
    by_cases hq : q.1 = k
    · simp [keyCount, List.filter_cons, hq]
    · simp only [List.any_cons, keyCount, List.filter_cons, hq]
      simp [keyCount] at ih
      simp [hq, ih]

theorem filter_update_self (k : String) (v : JSVal) :
    ∀ (o : List (String × JSVal)),
      (o.map (fun p => if p.1 = k then (k, v) else p)).filter
          (fun p => p.1 = k) =
        (o.filter (fun p => p.1 = k)).map (fun _ => (k, v)) := by
  intro o
  induction o with
  | nil => rfl
  | cons w o ih =>
    by_cases hw : w.1 = k
    · simp [List.filter_cons, hw, ih]
    · simp [List.filter_cons, hw, ih]

theorem filter_update_ne (k k' : String) (v : JSVal) (h : k ≠ k') :
    ∀ (o : List (String × JSVal)),
      (o.map (fun p => if p.1 = k' then (k', v) else p)).filter
          (fun p => p.1 = k) =
        o.filter (fun p => p.1 = k) := by
  intro o
  induction o with
  | nil => rfl
  | cons w o ih =>
    by_cases hw : w.1 = k'
    · have : w.1 ≠ k := by rw [hw]; exact Ne.symm h
      simp [List.filter_cons, hw, this, Ne.symm h, ih]
    · simp [List.filter_cons, hw, ih]

theorem keyCount_objSet_self (k : String) (v : JSVal)
    (o : List (String × JSVal)) :
    keyCount k (objSet o k v) =
      if o.any (fun p => p.1 = k) then keyCount k o else keyCount k o + 1 := by
  by_cases ho : o.any (fun p => p.1 = k)
  · simp only [objSet, ho, if_true, keyCount, filter_update_self k v o]
    simp
  · simp only [objSet, ho, if_false, Bool.false_eq_true, keyCount,
      List.filter_append]
    simp [List.filter_cons]

theorem keyCount_objSet_ne (k k' : String) (v : JSVal) (h : k ≠ k')
    (o : List (String × JSVal)) :
    keyCount k (objSet o k' v) = keyCount k o := by
  by_cases ho : o.any (fun p => p.1 = k')
  · simp only [objSet, ho, if_true, keyCount, filter_update_ne k k' v h o]
  · simp only [objSet, ho, if_false, Bool.false_eq_true, keyCount,
      List.filter_append]
    simp [List.filter_cons, Ne.symm h]

theorem find_update_self (k : String) (v : JSVal) :
    ∀ (o : List (String × JSVal)), o.any (fun p => p.1 = k) = true →
      (o.map (fun p => if p.1 = k then (k, v) else p)).find?
          (fun p => p.1 = k) = some (k, v) := by
  intro o
  induction o with
  | nil => intro h; simp at h
  | cons w o ih =>
    intro h
    by_cases hw : w.1 = k
    · simp only [List.map_cons, if_pos hw]
      rw [List.find?_cons_of_pos _ (by simp)]
    · simp only [List.map_cons, if_neg hw]
      rw [List.find?_cons_of_neg _ (by simp [hw])]
      simp only [List.any_cons, hw] at h
      exact ih (by simpa [hw] using h)

theorem find_update_ne (k k' : String) (v : JSVal) (h : k ≠ k') :
    ∀ (o : List (String × JSVal)),
      (o.map (fun p => if p.1 = k' then (k', v) else p)).find?
          (fun p => p.1 = k) = o.find? (fun p => p.1 = k) := by
  intro o
  induction o with
  | nil => rfl
  | cons w o ih =>
    by_cases hw : w.1 = k'
    · have hwk : w.1 ≠ k := by rw [hw]; exact Ne.symm h
      simp only [List.map_cons, if_pos hw]
      rw [List.find?_cons_of_neg _ (by simp [Ne.symm h]),
          List.find?_cons_of_neg _ (by simp [hwk])]
      exact ih
    · simp only [List.map_cons, if_neg hw]
      by_cases hwk : w.1 = k
      · rw [List.find?_cons_of_pos _ (by simp [hwk]),
            List.find?_cons_of_pos _ (by simp [hwk])]
      · rw [List.find?_cons_of_neg _ (by simp [hwk]),
            List.find?_cons_of_neg _ (by simp [hwk])]
        exact ih

theorem assocLookup_objSet_self (k : String) (v : JSVal)
    (o : List (String × JSVal)) :
    assocLookup k (objSet o k v) = some v := by
  by_cases ho : o.any (fun p => p.1 = k)
  · simp only [objSet, ho, if_true, assocLookup]
    rw [find_update_self k v o ho]
    rfl
  · simp only [objSet, ho, if_false, Bool.false_eq_true, assocLookup]
    rw [List.find?_append]
    have h1 : o.find? (fun p => p.1 = k) = none := by
      rw [List.find?_eq_none]
      intro p hp
      simp only [List.any_eq_true] at ho
      simp only [decide_eq_true_eq]
      intro e
      exact ho ⟨p, hp, by simp [e]⟩
    rw [h1]
    simp only [Option.none_or]
    rw [List.find?_cons_of_pos _ (by simp)]
    rfl

theorem assocLookup_objSet_ne (k k' : String) (v : JSVal) (h : k ≠ k')
    (o : List (String × JSVal)) :
    assocLookup k (objSet o k' v) = assocLookup k o := by
  by_cases ho : o.any (fun p => p.1 = k')
  · simp only [objSet, ho, if_true, assocLookup]
    rw [find_update_ne k k' v h o]
  · simp only [objSet, ho, if_false, Bool.false_eq_true, assocLookup]
    rw [List.find?_append]
    have h2 : ([((k' : String), v)] : List (String × JSVal)).find?
        (fun p => p.1 = k) = none := by
      rw [List.find?_eq_none]
      intro p hp
      simp only [List.mem_singleton] at hp
      subst hp
      simp [Ne.symm h]
    rw [h2]
    simp

theorem length_objSet_le (k : String) (v : JSVal)
    (o : List (String × JSVal)) :
    (objSet o k v).length ≤ o.length + 1 := by
  by_cases ho : o.any (fun p => p.1 = k)
  · simp [objSet, ho]
  · simp [objSet, ho]

theorem lowercaseRow_append_singleton (xs : List (String × JSVal))
    (p : String × JSVal) :
    lowercaseRow (xs ++ [p]) =
      objSet (lowercaseRow xs) (jsToLowerCase p.1) p.2 := by
  simp [lowercaseRow, List.foldl_append]

theorem lowercaseRow_spec (row : List (String × JSVal)) (k : String) :
    keyCount k (lowercaseRow row) =
      (if row.any (fun p => jsToLowerCase p.1 = k) then 1 else 0) ∧
    assocLookup k (lowercaseRow row) = lastLoweredValue k row ∧
    (lowercaseRow row).length ≤ row.length := by
  induction row using List.reverseRecOn with
  | nil => simp [lowercaseRow, keyCount, assocLookup, lastLoweredValue]
  | append_singleton xs p ih =>
    obtain ⟨ihc, ihl, ihlen⟩ := ih
    rw [lowercaseRow_append_singleton]
    by_cases hk : k = jsToLowerCase p.1
    · subst hk
      refine ⟨?_, ?_, ?_⟩
      · rw [keyCount_objSet_self]
        by_cases hx : xs.any
            (fun q => jsToLowerCase q.1 = jsToLowerCase p.1) = true
        · have hcnt : keyCount (jsToLowerCase p.1) (lowercaseRow xs) = 1 := by
            rw [ihc, if_pos hx]
          have hany : (lowercaseRow xs).any
              (fun q => q.1 = jsToLowerCase p.1) = true := by
            rw [any_key_iff_keyCount]
            omega
          rw [if_pos hany, hcnt, if_pos (by simp [List.any_append, hx])]
        · have hcnt : keyCount (jsToLowerCase p.1) (lowercaseRow xs) = 0 := by
            rw [ihc, if_neg hx]
          have hany : (lowercaseRow xs).any
              (fun q => q.1 = jsToLowerCase p.1) = false := by
            by_contra hcon
            have h2 : (lowercaseRow xs).any
                (fun q => q.1 = jsToLowerCase p.1) = true := by
              simpa using hcon
            exact (any_key_iff_keyCount _ _).mp h2 hcnt
          rw [hany, if_neg (by simp), hcnt,
              if_pos (by simp [List.any_append])]
      · rw [assocLookup_objSet_self]
        simp only [lastLoweredValue, List.reverse_append, List.reverse_cons,
          List.reverse_nil, List.nil_append, List.cons_append,
          List.singleton_append]
        rw [List.find?_cons_of_pos _ (by simp)]
        rfl
      · calc (objSet (lowercaseRow xs) (jsToLowerCase p.1) p.2).length
            ≤ (lowercaseRow xs).length + 1 := length_objSet_le _ _ _
          _ ≤ xs.length + 1 := by omega
          _ = (xs ++ [p]).length := by simp
    · refine ⟨?_, ?_, ?_⟩
      · rw [keyCount_objSet_ne k (jsToLowerCase p.1) p.2 hk, ihc]
        have hone : ([p].any (fun q => jsToLowerCase q.1 = k)) = false := by
          simp only [List.any_cons, List.any_nil, Bool.or_false,
            decide_eq_false_iff_not]
          exact fun e => hk e.symm
        rw [List.any_append, hone, Bool.or_false]
      · rw [assocLookup_objSet_ne k (jsToLowerCase p.1) p.2 hk, ihl]
        simp only [lastLoweredValue, List.reverse_append, List.reverse_cons,
          List.reverse_nil, List.nil_append, List.singleton_append]
        rw [List.find?_cons_of_neg _ (by
          simp only [decide_eq_true_eq]
          exact fun e => hk e.symm)]
      · calc (objSet (lowercaseRow xs) (jsToLowerCase p.1) p.2).length
            ≤ (lowercaseRow xs).length + 1 := length_objSet_le _ _ _
          _ ≤ xs.length + 1 := by omega
          _ = (xs ++ [p]).length := by simp

theorem two_mem_le_length {α : Type} :
    ∀ (l : List α) (a b : α), a ∈ l → b ∈ l → a ≠ b → 2 ≤ l.length := by
  intro l
  induction l with
  | nil => intro a b ha _ _; simp at ha
  | cons x t ih =>
    intro a b ha hb hne
    by_cases hax : a = x
    · subst hax
      have hbt : b ∈ t := by
        rcases List.mem_cons.mp hb with h | h
        · exact absurd h.symm hne
        · exact h
      have := List.length_pos.mpr (List.ne_nil_of_mem hbt)
      simp only [List.length_cons]
      omega
    · have hat : a ∈ t := by
        rcases List.mem_cons.mp ha with h | h
        · exact absurd h hax
        · exact h
      by_cases hbx : b = x
      · have := List.length_pos.mpr (List.ne_nil_of_mem hat)
        simp only [List.length_cons]
        omega
      · have hbt : b ∈ t := by
          rcases List.mem_cons.mp hb with h | h
          · exact absurd h hbx
          · exact h
        have := ih a b hat hbt hne
        simp only [List.length_cons]
        omega

/-- C10: for every row containing two distinct keys that lowercase to the
same string, the normalizer (`lowercaseKeys`, acting as `lowercaseRow` on
each row) returns a row in which that lowercase key occurs exactly once,
bound to the value of the latest such key in insertion order; the input had
at least two fields mapping to that key, so the colliding fields beyond the
survivor are dropped and the normalized row is no longer than the input. -/
theorem lowercaseRow_collision (row : List (String × JSVal)) (k₁ k₂ : String)
    (hne : k₁ ≠ k₂)
    (h1 : k₁ ∈ row.map (fun p => p.1)) (h2 : k₂ ∈ row.map (fun p => p.1))
    (hlow : jsToLowerCase k₁ = jsToLowerCase k₂) :
    lowercaseKeys [row] = [lowercaseRow row] ∧
    keyCount (jsToLowerCase k₁) (lowercaseRow row) = 1 ∧
    assocLookup (jsToLowerCase k₁) (lowercaseRow row) =
      lastLoweredValue (jsToLowerCase k₁) row ∧
    2 ≤ (row.filter
      (fun p => jsToLowerCase p.1 = jsToLowerCase k₁)).length ∧
    (lowercaseRow row).length ≤ row.length := by
  obtain ⟨spec1, spec2, spec3⟩ := lowercaseRow_spec row (jsToLowerCase k₁)
  obtain ⟨p₁, hp₁, hp₁k⟩ := List.mem_map.mp h1
  obtain ⟨p₂, hp₂, hp₂k⟩ := List.mem_map.mp h2
  have hany : row.any (fun p => jsToLowerCase p.1 = jsToLowerCase k₁) =
      true := by
    simp only [List.any_eq_true]
    exact ⟨p₁, hp₁, by simp [hp₁k]⟩
  refine ⟨rfl, ?_, spec2, ?_, spec3⟩
  · rw [spec1, if_pos hany]
  · have hf1 : p₁ ∈ row.filter
        (fun p => jsToLowerCase p.1 = jsToLowerCase k₁) := by
      rw [List.mem_filter]
      exact ⟨hp₁, by simp [hp₁k]⟩
    have hf2 : p₂ ∈ row.filter
        (fun p => jsToLowerCase p.1 = jsToLowerCase k₁) := by
      rw [List.mem_filter]
      exact ⟨hp₂, by simp [hp₂k, hlow.symm]⟩
    have hpne : p₁ ≠ p₂ := by
      intro e
      apply hne
      rw [← hp₁k, ← hp₂k, e]
    exact two_mem_le_length _ p₁ p₂ hf1 hf2 hpne

/-- Witness for C10: the row with keys `A` and `a` keeps one `a` field
bound to the later value. -/
theorem lowercaseRow_collision_witness :
    lowercaseKeys [[("A", JSVal.num 1), ("a", JSVal.num 2)]] =
      [lowercaseRow [("A", JSVal.num 1), ("a", JSVal.num 2)]] ∧
    keyCount (jsToLowerCase "A")
      (lowercaseRow [("A", JSVal.num 1), ("a", JSVal.num 2)]) = 1 ∧
    assocLookup (jsToLowerCase "A")
        (lowercaseRow [("A", JSVal.num 1), ("a", JSVal.num 2)]) =
      lastLoweredValue (jsToLowerCase "A")
        [("A", JSVal.num 1), ("a", JSVal.num 2)] ∧
    2 ≤ ([("A", JSVal.num 1), ("a", JSVal.num 2)].filter
      (fun p => jsToLowerCase p.1 = jsToLowerCase "A")).length ∧
    (lowercaseRow [("A", JSVal.num 1), ("a", JSVal.num 2)]).length ≤
      ([("A", JSVal.num 1), ("a", JSVal.num 2)] :
        List (String × JSVal)).length :=
  lowercaseRow_collision [("A", JSVal.num 1), ("a", JSVal.num 2)] "A" "a"
    (by decide) (by decide) (by decide) (by decide)

/-!  Splitting the placeholder rewrite at a boundary whose right side does
not begin with a digit (so no `$`-digit run crosses the boundary). -/

theorem takeWhile_append_head_neg {p : Char → Bool} :
    ∀ (a b : List Char), (∀ c, b.head? = some c → p c = false) →
      (a ++ b).takeWhile p = a.takeWhile p := by
  intro a
  induction a with
  | nil =>
    intro b hb
    simp [takeWhile_head_neg b hb]
  | cons c cs ih =>
    intro b hb
    by_cases hc : p c
    · simp only [List.cons_append, List.takeWhile_cons_of_pos hc]
      rw [ih b hb]
    · simp only [List.cons_append, List.takeWhile_cons_of_neg (by simpa using hc)]

theorem dropWhile_append_head_neg {p : Char → Bool} :
    ∀ (a b : List Char), (∀ c, b.head? = some c → p c = false) →
      (a ++ b).dropWhile p = a.dropWhile p ++ b := by
  intro a
  induction a with
  | nil =>
    intro b hb
    simp [dropWhile_head_neg b hb]
  | cons c cs ih =>
    intro b hb
    by_cases hc : p c
    · simp only [List.cons_append, List.dropWhile_cons_of_pos hc]
      exact ih b hb
    · simp only [List.cons_append, List.dropWhile_cons_of_neg (by simpa using hc)]

theorem dollarRewrite_append (ph : List Char) :
    ∀ (n : Nat) (a b : List Char), a.length ≤ n →
      (∀ c, b.head? = some c → c.isDigit = false) →
      dollarRewrite ph (a ++ b) =
        dollarRewrite ph a ++ dollarRewrite ph b := by
  intro n
  induction n with
  | zero =>
    intro a b ha _
    have : a = [] := List.length_eq_zero.mp (Nat.le_zero.mp ha)
    subst this
    simp [dollarRewrite_nil]
  | succ n ih =>
    intro a b ha hb
    cases a with
    | nil => simp [dollarRewrite_nil]
    | cons c cs =>
      simp only [List.length_cons] at ha
      rw [List.cons_append, dollarRewrite_cons, dollarRewrite_cons]
      by_cases hc : c = '$'
      · simp only [hc, if_true]
        rw [takeWhile_append_head_neg cs b hb]
        by_cases hds : (cs.takeWhile Char.isDigit).isEmpty
        · simp only [hds, if_true]
          rw [ih cs b (by omega) hb]
          simp
        · simp only [hds, if_false, Bool.false_eq_true]
          rw [dropWhile_append_head_neg cs b hb]
          have hlen : (cs.dropWhile Char.isDigit).length ≤ n := by
            have := length_dropWhile_le Char.isDigit cs
            omega
          rw [ih (cs.dropWhile Char.isDigit) b hlen hb]
          simp
      · simp only [hc, if_false]
        rw [ih cs b (by omega) hb]
        simp

theorem tryIlikeAt_tokens (a b T : List Char)
    (hane : a ≠ []) (hasp : ∀ c ∈ a, isJsSpace c = false)
    (hbne : b ≠ []) (hbsp : ∀ c ∈ b, isJsSpace c = false)
    (hT : ∀ c, T.head? = some c → isJsSpace c = true) :
    tryIlikeAt (a ++ (" ILIKE ".data ++ (b ++ T))) = some (a, b, T) := by
  have hnsp : ∀ c ∈ a, (fun c => !isJsSpace c) c = true := by
    intro c hc
    simp [hasp c hc]
  have e1 : (a ++ (" ILIKE ".data ++ (b ++ T))).takeWhile
      (fun c => !isJsSpace c) = a := by
    rw [takeWhile_append_head_neg a _ (by
      intro c hc
      simp at hc
      subst hc
      decide)]
    exact List.takeWhile_eq_self_iff.mpr hnsp
  have e2 : (a ++ (" ILIKE ".data ++ (b ++ T))).dropWhile
      (fun c => !isJsSpace c) = " ILIKE ".data ++ (b ++ T) := by
    rw [dropWhile_append_head_neg a _ (by
      intro c hc
      simp at hc
      subst hc
      decide)]
    rw [List.dropWhile_eq_nil_iff.mpr (by
      intro c hc
      simpa using hnsp c hc)]
    simp
  have e3 : matchWs1 (" ILIKE ".data ++ (b ++ T)) =
      some ("ILIKE ".data ++ (b ++ T)) := rfl
  have e4 : matchCI "ILIKE".data ("ILIKE ".data ++ (b ++ T)) =
      some (' ' :: (b ++ T)) := matchCI_self_append "ILIKE".data _
  have e5 : matchWs1 (' ' :: (b ++ T)) = some (b ++ T) := by
    simp only [matchWs1]
    rw [if_pos (by decide)]
    cases b with
    | nil => exact absurd rfl hbne
    | cons x xs =>
      simp only [List.cons_append]
      rw [List.dropWhile_cons_of_neg (by simp [hbsp x (by simp)])]
  have e6 : (b ++ T).takeWhile (fun c => !isJsSpace c) = b := by
    rw [takeWhile_append_head_neg b T (by
      intro c hc
      simp [hT c hc])]
    exact List.takeWhile_eq_self_iff.mpr (by
      intro c hc
      simp [hbsp c hc])
  have e7 : (b ++ T).dropWhile (fun c => !isJsSpace c) = T := by
    rw [dropWhile_append_head_neg b T (by
      intro c hc
      simp [hT c hc])]
    rw [List.dropWhile_eq_nil_iff.mpr (by
      intro c hc
      simp [hbsp c hc])]
    simp
  simp only [tryIlikeAt, e1, e2, e3, e4, e5, e6, e7]
  rw [if_neg (by simpa using hane)]
  rw [if_neg (by simpa using hbne)]

theorem ilikeRewrite_two_occurrences (w : Bool) (a b g c d : List Char)
    (hane : a ≠ []) (hasp : ∀ x ∈ a, isJsSpace x = false)
    (hbne : b ≠ []) (hbsp : ∀ x ∈ b, isJsSpace x = false)
    (hcne : c ≠ []) (hcsp : ∀ x ∈ c, isJsSpace x = false)
    (hdne : d ≠ []) (hdsp : ∀ x ∈ d, isJsSpace x = false)
    (hgne : g ≠ []) (hg : ∀ x, g.head? = some x → isJsSpace x = true)
    (hclear : ilikeScanClear g (c ++ (" ILIKE ".data ++ d)) = true) :
    ilikeRewrite w
        (a ++ (" ILIKE ".data ++ (b ++ (g ++ (c ++ (" ILIKE ".data ++ d)))))) =
      ilikeSubst w a b ++ (g ++ ilikeSubst w c d) := by
  have h1 : tryIlikeAt
      (a ++ (" ILIKE ".data ++ (b ++ (g ++ (c ++ (" ILIKE ".data ++ d)))))) =
      some (a, b, g ++ (c ++ (" ILIKE ".data ++ d))) :=
    tryIlikeAt_tokens a b (g ++ (c ++ (" ILIKE ".data ++ d))) hane hasp
      hbne hbsp (by
        intro x hx
        cases g with
        | nil => exact absurd rfl hgne
        | cons y ys =>
          simp only [List.cons_append, List.head?_cons,
            Option.some.injEq] at hx
          subst hx
          exact hg y rfl)
  have h2 : tryIlikeAt (c ++ (" ILIKE ".data ++ (d ++ []))) =
      some (c, d, []) :=
    tryIlikeAt_tokens c d [] hcne hcsp hdne hdsp (by intro x hx; simp at hx)
  simp only [List.append_nil] at h2
  have step3 : ilikeRewrite w (c ++ (" ILIKE ".data ++ d)) =
      ilikeSubst w c d := by
    cases c with
    | nil => exact absurd rfl hcne
    | cons y ys =>
      have hr : tryIlikeAt (y :: (ys ++ (" ILIKE ".data ++ d))) =
          some (y :: ys, d, []) := h2
      rw [List.cons_append]
      rw [ilikeRewrite_cons_match w y (ys ++ (" ILIKE ".data ++ d))
            (y :: ys, d, []) hr]
      simp [ilikeRewrite_nil]
  cases a with
  | nil => exact absurd rfl hane
  | cons z zs =>
    have hr : tryIlikeAt (z :: (zs ++ (" ILIKE ".data ++
        (b ++ (g ++ (c ++ (" ILIKE ".data ++ d))))))) =
        some (z :: zs, b, g ++ (c ++ (" ILIKE ".data ++ d))) := h1
    have e := ilikeRewrite_cons_match w z (zs ++ (" ILIKE ".data ++
        (b ++ (g ++ (c ++ (" ILIKE ".data ++ d))))))
        (z :: zs, b, g ++ (c ++ (" ILIKE ".data ++ d))) hr
    rw [List.cons_append]
    rw [e]
    rw [ilikeScanClear_spec w g (c ++ (" ILIKE ".data ++ d)) hclear]
    rw [step3]

theorem isJsSpace_not_digit (c : Char) (h : isJsSpace c = true) :
    c.isDigit = false := by
  simp only [isJsSpace, Bool.or_eq_true, decide_eq_true_eq] at h
  rcases h with ((((h | h) | h) | h) | h) | h <;> subst h <;> decide

theorem head_append_of_ne {x : Char} :
    ∀ (a b : List Char), a ≠ [] → (a ++ b).head? = some x →
      a.head? = some x := by
  intro a b hne h
  cases a with
  | nil => exact absurd rfl hne
  | cons y ys => simpa using h

theorem dollarRewrite_two_ilike_decomp (ph : List Char)
    (t1 t2 g u1 u2 : List Char)
    (hg : ∀ x, g.head? = some x → isJsSpace x = true) (hgne : g ≠ [])
    (ht2ne : t2 ≠ []) (hu1ne : u1 ≠ [])
    (ht2d : ∀ x, t2.head? = some x → x.isDigit = false)
    (hu1d : ∀ x, u1.head? = some x → x.isDigit = false)
    (hu2d : ∀ x, u2.head? = some x → x.isDigit = false) :
    dollarRewrite ph
        (t1 ++ (" ILIKE ".data ++ (t2 ++ (g ++ (u1 ++ (" ILIKE ".data ++ u2)))))) =
      dollarRewrite ph t1 ++ (" ILIKE ".data ++ (dollarRewrite ph t2 ++
        (dollarRewrite ph g ++ (dollarRewrite ph u1 ++
          (" ILIKE ".data ++ dollarRewrite ph u2))))) := by
  have hilike : dollarRewrite ph " ILIKE ".data = " ILIKE ".data :=
    dollarRewrite_no_dollar ph " ILIKE ".data (by decide)
  have hsphead : ∀ (X : List Char) (c : Char),
      (" ILIKE ".data ++ X).head? = some c → c.isDigit = false := by
    intro X c hc
    simp only [List.cons_append, List.head?_cons, Option.some.injEq] at hc
    subst hc
    decide
  have hghead : ∀ (Y : List Char) (c : Char), (g ++ Y).head? = some c →
      c.isDigit = false := by
    intro Y c hc
    exact isJsSpace_not_digit c (hg c (head_append_of_ne g Y hgne hc))
  have ht2head : ∀ (Y : List Char) (c : Char), (t2 ++ Y).head? = some c →
      c.isDigit = false := by
    intro Y c hc
    exact ht2d c (head_append_of_ne t2 Y ht2ne hc)
  have hu1head : ∀ (Y : List Char) (c : Char), (u1 ++ Y).head? = some c →
      c.isDigit = false := by
    intro Y c hc
    exact hu1d c (head_append_of_ne u1 Y hu1ne hc)
  rw [dollarRewrite_append ph t1.length t1 _ (Nat.le_refl _) (hsphead _)]
  rw [dollarRewrite_append ph (" ILIKE ".data).length " ILIKE ".data _
        (Nat.le_refl _) (ht2head _), hilike]
  rw [dollarRewrite_append ph t2.length t2 _ (Nat.le_refl _) (hghead _)]
  rw [dollarRewrite_append ph g.length g _ (Nat.le_refl _) (hu1head _)]
  rw [dollarRewrite_append ph u1.length u1 _ (Nat.le_refl _) (hsphead _)]
  rw [dollarRewrite_append ph (" ILIKE ".data).length " ILIKE ".data _
        (Nat.le_refl _) hu2d, hilike]

theorem isJsSpace_ne_dollar (c : Char) (h : isJsSpace c = true) :
    c ≠ '$' := by
  simp only [isJsSpace, Bool.or_eq_true, decide_eq_true_eq] at h
  rcases h with ((((h | h) | h) | h) | h) | h <;> subst h <;> decide

/-- C8: for every canonical query text formed of two separate
case-insensitive comparisons `t1 ILIKE t2` and `u1 ILIKE u2` joined by
whitespace-delimited glue `g` (tokens single non-space words, the glue inert
for the CI scanner, no pagination clause and no count alias — the canonical
grammar), each dialect translation rewrites both occurrences, and each
rewritten clause is built from the placeholder rewrite of its own operand
tokens only, with the glue left untouched between them. -/
theorem translate_two_ilike_independent
    (t1 t2 g u1 u2 : List Char) (ps : List JSVal)
    (hg : ∀ x, g.head? = some x → isJsSpace x = true) (hgne : g ≠ [])
    (ht2ne : t2 ≠ []) (hu1ne : u1 ≠ [])
    (ht2d : ∀ x, t2.head? = some x → x.isDigit = false)
    (hu1d : ∀ x, u1.head? = some x → x.isDigit = false)
    (hu2d : ∀ x, u2.head? = some x → x.isDigit = false)
    (hT1o : dollarRewrite [':'] t1 ≠ [] ∧
      ∀ x ∈ dollarRewrite [':'] t1, isJsSpace x = false)
    (hT2o : dollarRewrite [':'] t2 ≠ [] ∧
      ∀ x ∈ dollarRewrite [':'] t2, isJsSpace x = false)
    (hU1o : dollarRewrite [':'] u1 ≠ [] ∧
      ∀ x ∈ dollarRewrite [':'] u1, isJsSpace x = false)
    (hU2o : dollarRewrite [':'] u2 ≠ [] ∧
      ∀ x ∈ dollarRewrite [':'] u2, isJsSpace x = false)
    (hT1m : dollarRewrite "@p".data t1 ≠ [] ∧
      ∀ x ∈ dollarRewrite "@p".data t1, isJsSpace x = false)
    (hT2m : dollarRewrite "@p".data t2 ≠ [] ∧
      ∀ x ∈ dollarRewrite "@p".data t2, isJsSpace x = false)
    (hU1m : dollarRewrite "@p".data u1 ≠ [] ∧
      ∀ x ∈ dollarRewrite "@p".data u1, isJsSpace x = false)
    (hU2m : dollarRewrite "@p".data u2 ≠ [] ∧
      ∀ x ∈ dollarRewrite "@p".data u2, isJsSpace x = false)
    (hoclear : ilikeScanClear (dollarRewrite [':'] g)
      (dollarRewrite [':'] u1 ++ (" ILIKE ".data ++ dollarRewrite [':'] u2)) = true)
    (hmclear : ilikeScanClear (dollarRewrite "@p".data g)
      (dollarRewrite "@p".data u1 ++
        (" ILIKE ".data ++ dollarRewrite "@p".data u2)) = true)
    (hofind : findLimit [':']
      (ilikeSubst true (dollarRewrite [':'] t1) (dollarRewrite [':'] t2) ++
        (dollarRewrite [':'] g ++ ilikeSubst true (dollarRewrite [':'] u1) (dollarRewrite [':'] u2))) = none)
    (hocount : countScanClear
      (ilikeSubst true (dollarRewrite [':'] t1) (dollarRewrite [':'] t2) ++
        (dollarRewrite [':'] g ++ ilikeSubst true (dollarRewrite [':'] u1) (dollarRewrite [':'] u2))) = true)
    (hmfind : findLimit "@p".data
      (ilikeSubst false (dollarRewrite "@p".data t1) (dollarRewrite "@p".data t2) ++
        (dollarRewrite "@p".data g ++ ilikeSubst false (dollarRewrite "@p".data u1) (dollarRewrite "@p".data u2))) = none) :
    (translateToOracle (t1 ++ (" ILIKE ".data ++ (t2 ++ (g ++ (u1 ++ (" ILIKE ".data ++ u2)))))) ps).sql =
      ilikeSubst true (dollarRewrite [':'] t1) (dollarRewrite [':'] t2) ++
        (dollarRewrite [':'] g ++ ilikeSubst true (dollarRewrite [':'] u1) (dollarRewrite [':'] u2)) ∧
    (translateToOracle (t1 ++ (" ILIKE ".data ++ (t2 ++ (g ++ (u1 ++ (" ILIKE ".data ++ u2)))))) ps).filteredParams = ps ∧
    (translateToOracle (t1 ++ (" ILIKE ".data ++ (t2 ++ (g ++ (u1 ++ (" ILIKE ".data ++ u2)))))) ps).binds = bindsOf ps ∧
    (translateToMssql (t1 ++ (" ILIKE ".data ++ (t2 ++ (g ++ (u1 ++ (" ILIKE ".data ++ u2)))))) ps).sql =
      ilikeSubst false (dollarRewrite "@p".data t1) (dollarRewrite "@p".data t2) ++
        (dollarRewrite "@p".data g ++ ilikeSubst false (dollarRewrite "@p".data u1) (dollarRewrite "@p".data u2)) ∧
    (translateToMssql (t1 ++ (" ILIKE ".data ++ (t2 ++ (g ++ (u1 ++ (" ILIKE ".data ++ u2)))))) ps).filteredParams = ps := by
  cases g with
  | nil => exact absurd rfl hgne
  | cons y ys =>
    have hy : isJsSpace y = true := hg y rfl
    have hyd : y ≠ '$' := isJsSpace_ne_dollar y hy
    have hsql2 : ∀ (ph : List Char) (w : Bool),
        dollarRewrite ph (y :: ys) ≠ [] →
        (∀ x, (dollarRewrite ph (y :: ys)).head? = some x → isJsSpace x = true) →
        (dollarRewrite ph t1 ≠ [] ∧ ∀ x ∈ dollarRewrite ph t1, isJsSpace x = false) →
        (dollarRewrite ph t2 ≠ [] ∧ ∀ x ∈ dollarRewrite ph t2, isJsSpace x = false) →
        (dollarRewrite ph u1 ≠ [] ∧ ∀ x ∈ dollarRewrite ph u1, isJsSpace x = false) →
        (dollarRewrite ph u2 ≠ [] ∧ ∀ x ∈ dollarRewrite ph u2, isJsSpace x = false) →
        ilikeScanClear (dollarRewrite ph (y :: ys))
          (dollarRewrite ph u1 ++ (" ILIKE ".data ++ dollarRewrite ph u2)) = true →
        ilikeRewrite w (dollarRewrite ph
          (t1 ++ (" ILIKE ".data ++ (t2 ++ ((y :: ys) ++
            (u1 ++ (" ILIKE ".data ++ u2))))))) =
          ilikeSubst w (dollarRewrite ph t1) (dollarRewrite ph t2) ++
            (dollarRewrite ph (y :: ys) ++
              ilikeSubst w (dollarRewrite ph u1) (dollarRewrite ph u2)) := by
      intro ph w hdgne hdghead h1 h2 h3 h4 hclear
      rw [dollarRewrite_two_ilike_decomp ph t1 t2 (y :: ys) u1 u2 hg
            (by simp) ht2ne hu1ne ht2d hu1d hu2d]
      exact ilikeRewrite_two_occurrences w _ _ _ _ _ h1.1 h1.2 h2.1 h2.2
        h3.1 h3.2 h4.1 h4.2 hdgne hdghead hclear
    have hdgo : dollarRewrite [':'] (y :: ys) = y :: dollarRewrite [':'] ys :=
      dollarRewrite_cons_ne [':'] ys hyd
    have hdgm : dollarRewrite "@p".data (y :: ys) =
        y :: dollarRewrite "@p".data ys :=
      dollarRewrite_cons_ne "@p".data ys hyd
    have ho := hsql2 [':'] true (by simp [hdgo]) (by
        rw [hdgo]
        intro x hx
        simp only [List.head?_cons, Option.some.injEq] at hx
        subst hx
        exact hy) hT1o hT2o hU1o hU2o hoclear
    have hm := hsql2 "@p".data false (by simp [hdgm]) (by
        rw [hdgm]
        intro x hx
        simp only [List.head?_cons, Option.some.injEq] at hx
        subst hx
        exact hy) hT1m hT2m hU1m hU2m hmclear
    refine ⟨?_, ?_, ?_, ?_, ?_⟩
    · simp only [translateToOracle, ho, hofind]
      rw [countScanClear_id _ hocount]
    · simp only [translateToOracle, ho, hofind]
    · simp only [translateToOracle, ho, hofind]
    · simp only [translateToMssql, hm, hmfind]
    · simp only [translateToMssql, hm, hmfind]

/-- Witness for C8: `name ILIKE $1 AND city ILIKE $2`. -/
theorem translate_two_ilike_independent_witness :
    (translateToOracle ("name".data ++ (" ILIKE ".data ++ ("$1".data ++ (" AND ".data ++ ("city".data ++ (" ILIKE ".data ++ "$2".data)))))) [JSVal.str "%a%", JSVal.str "%b%"]).sql =
      ilikeSubst true (dollarRewrite [':'] "name".data) (dollarRewrite [':'] "$1".data) ++
        (dollarRewrite [':'] " AND ".data ++ ilikeSubst true (dollarRewrite [':'] "city".data) (dollarRewrite [':'] "$2".data)) ∧
    (translateToOracle ("name".data ++ (" ILIKE ".data ++ ("$1".data ++ (" AND ".data ++ ("city".data ++ (" ILIKE ".data ++ "$2".data)))))) [JSVal.str "%a%", JSVal.str "%b%"]).filteredParams = [JSVal.str "%a%", JSVal.str "%b%"] ∧
    (translateToOracle ("name".data ++ (" ILIKE ".data ++ ("$1".data ++ (" AND ".data ++ ("city".data ++ (" ILIKE ".data ++ "$2".data)))))) [JSVal.str "%a%", JSVal.str "%b%"]).binds = bindsOf [JSVal.str "%a%", JSVal.str "%b%"] ∧
    (translateToMssql ("name".data ++ (" ILIKE ".data ++ ("$1".data ++ (" AND ".data ++ ("city".data ++ (" ILIKE ".data ++ "$2".data)))))) [JSVal.str "%a%", JSVal.str "%b%"]).sql =
      ilikeSubst false (dollarRewrite "@p".data "name".data) (dollarRewrite "@p".data "$1".data) ++
        (dollarRewrite "@p".data " AND ".data ++ ilikeSubst false (dollarRewrite "@p".data "city".data) (dollarRewrite "@p".data "$2".data)) ∧
    (translateToMssql ("name".data ++ (" ILIKE ".data ++ ("$1".data ++ (" AND ".data ++ ("city".data ++ (" ILIKE ".data ++ "$2".data)))))) [JSVal.str "%a%", JSVal.str "%b%"]).filteredParams = [JSVal.str "%a%", JSVal.str "%b%"] :=
  translate_two_ilike_independent "name".data "$1".data " AND ".data "city".data "$2".data [JSVal.str "%a%", JSVal.str "%b%"]
    (by decide) (by decide) (by decide) (by decide) (by decide) (by decide)
    (by decide) (by decide) (by decide) (by decide) (by decide) (by decide)
    (by decide) (by decide) (by decide) (by decide) (by decide) (by decide)
    (by decide) (by decide)
